import Mathlib

/-!
# crypto-cli: key wrapping, streamed file encryption, layer selection, verified blob download

A shallow embedding of the parts of the repository that its specification
makes claims about:

* `crypto/file.go`        : `EncFile`, `DecFile`, `GenDataKey`
* `images/imageOutput.go` : `numLayers`, `getImgTarLayers`, `findLayers`, `encryptLayer`,
  `compressLayer`
* `images/images.go`      : `obtainImageData`
* `registry/pull.go`      : `respond`, `quitUnVerified`, `download`, `PullFromDigest`,
  `PullManifest`, `PullImage`
* `crypto/keyenc.go`      : `EncryptKey`, `DecryptKey`, modelled from the specification,
  the file itself not being among the sources

Go values that may be `nil` are `Option`s, a Go `error` result is an
`Option Err` (`none` is `nil`), and a call that ends the process
(`log.Fatal`, `os.Exit`) or panics is an `Exec` outcome of its own.
Libraries outside the repository (the operating system, `minio/sio`,
`go-digest`, the docker client, `net/http`) are parameters of the model.
-/

namespace CryptoCli

/-! ## Bytes, errors, outcomes -/

abbrev Byte := UInt8

/-- A Go `error` value. `errors` is `utils.Errors`, a slice of errors whose
entries may be `nil`; `wrap` is `errors.Wrap`/`errors.Wrapf`/`errors.WithStack` of
`github.com/pkg/errors` applied to a non-nil error; `newError` is
`utils.NewError(msg, fatal)` as the tests of the key wrapper call it. -/
inductive Err where
  | leaf (msg : String)
  | newError (msg : String) (fatal : Bool)
  | wrap (cause : Err) (msg : String)
  | errors (es : List (Option Err))

/-- The sentinel `io.EOF`. -/
def ioEOF : Err := Err.leaf "EOF"

/-- The sentinel `os.ErrClosed`, returned by `(*os.File).Close` on a handle
that is already closed. -/
def osErrClosed : Err := Err.leaf "file already closed"

/-- The sentinel `os.ErrNotExist`. -/
def osErrNotExist : Err := Err.leaf "no such file or directory"

/-- `errors.Wrapf(err, msg)`: `nil` when `err` is `nil`. -/
def errorsWrapf (err : Option Err) (msg : String) : Option Err :=
  match err with
  | none => none
  | some e => some (Err.wrap e msg)

/-- How a Go call ends: it returns, the process exits (`log.Fatal`,
`os.Exit(1)`), or it panics. -/
inductive Exec (α : Type) where
  | returned (a : α)
  | fatal (msg : String)
  | panicked (msg : String)

/-! ## Strings -/

/-- `strings.Contains(s, substr)`. -/
def stringsContains (s substr : String) : Bool :=
  s.toList.tails.any (fun t => substr.toList.isPrefixOf t)

/-! ## Layer selection (`images/imageOutput.go`, `images/images.go`) -/

/-- `labelString` of `images/images.go`. -/
def labelString : String := "LABEL com.senetas.crypto.enabled=true"

/-- The fields of docker's `image.HistoryResponseItem` the code reads. -/
structure HistoryResponseItem where
  ID : String
  Size : Int
  CreatedBy : String

/-- The loop of `numLayers`: `some n` when the `return n, nil` inside the
loop is reached, `none` when the range is exhausted. -/
def numLayersLoop : List HistoryResponseItem → Nat → Option Nat
  | [], _ => none
  | h :: rest, n =>
    if h.Size ≠ 0 ∨ stringsContains h.CreatedBy "#(nop)" = false then
      numLayersLoop rest (n + 1)
    else if stringsContains h.CreatedBy labelString then
      some n
    else
      numLayersLoop rest n

/-- `numLayers` of `images/imageOutput.go`. After the loop `log.Fatal().Msg`
ends the process, so the final `return 0, nil` is never reached. -/
def numLayers (hist : List HistoryResponseItem) : Exec (Nat × Option Err) :=
  match numLayersLoop hist 0 with
  | some n => Exec.returned (n, none)
  | none => Exec.fatal "this image was not built with the correct LABEL"

/-- What `ImageInspectWithRaw` returns, as far as the code reads it. -/
structure ImageInspect where
  ID : String
  Layers : List String

/-- The docker daemon client: the three calls the code makes, each with its
answer for every argument. -/
structure DockerClient where
  ImageInspectWithRaw : String → Except Err ImageInspect
  ImageHistory : String → Except Err (List HistoryResponseItem)
  ImageSave : List String → Except Err (List Byte)

/-- The Go slice expression `s[i:]`: a panic unless `0 ≤ i ≤ len(s)`. -/
def sliceFrom (s : List String) (i : Int) : Exec (List String) :=
  if i < 0 ∨ (s.length : Int) < i then
    Exec.panicked "slice bounds out of range"
  else
    Exec.returned (s.drop i.toNat)

/-- `getImgTarLayers` of `images/imageOutput.go`. `newClient` is the result of
`client.NewClientWithOpts`. The result is the Go triple
`(layers, image stream, err)`. -/
def getImgTarLayers (newClient : Except Err DockerClient) (repo tag : String) :
    Exec (Option (List String) × Option (List Byte) × Option Err) :=
  match newClient with
  | .error e =>
    Exec.returned (none, none, some (Err.wrap e "could not create client for docker daemon"))
  | .ok cli =>
    match cli.ImageInspectWithRaw (repo ++ ":" ++ tag) with
    | .error _ => Exec.fatal "exit status 1"
    | .ok inspt =>
      match cli.ImageSave [inspt.ID] with
      | .error _ => Exec.fatal "exit status 1"
      | .ok img =>
        match cli.ImageHistory (repo ++ ":" ++ tag) with
        | .error _ => Exec.fatal "exit status 1"
        | .ok hist =>
          match numLayers hist with
          | Exec.fatal m => Exec.fatal m
          | Exec.panicked m => Exec.panicked m
          | Exec.returned (_, some err) => Exec.returned (none, none, some err)
          | Exec.returned (n, none) =>
            let m := inspt.Layers.length
            match sliceFrom inspt.Layers ((m : Int) - (n : Int)) with
            | Exec.returned layers => Exec.returned (some layers, some img, none)
            | Exec.fatal msg => Exec.fatal msg
            | Exec.panicked msg => Exec.panicked msg

/-- The first loop of `obtainImageData`: the least index `i ≥ start` whose
entry contains `labelString`, or `len(hist)` when there is none. -/
def findLabel : List HistoryResponseItem → Nat → Nat
  | [], i => i
  | h :: rest, i => if stringsContains h.CreatedBy labelString then i else findLabel rest (i + 1)

/-- The statement `layerMap[x]++` on a map kept as an association list in
order of first insertion. -/
def layerMapIncr : List (String × Nat) → String → List (String × Nat)
  | [], x => [(x, 1)]
  | (k, v) :: rest, x => if k = x then (k, v + 1) :: rest else (k, v) :: layerMapIncr rest x

/-- The loop over `ids` in `obtainImageData`: inspect each image and count
its layers into `layerMap`; the first inspection error ends the function. -/
def countLayers (cli : DockerClient) : List String → List (String × Nat) →
    Except Err (List (String × Nat))
  | [], layerMap => .ok layerMap
  | x :: ids, layerMap =>
    match cli.ImageInspectWithRaw x with
    | .error e => .error e
    | .ok inspt => countLayers cli ids (inspt.Layers.foldl layerMapIncr layerMap)

/-- `obtainImageData` of `images/images.go`. Go ranges over `layerMap` in an
unspecified order; the model ranges in order of first insertion, so only the
set of returned layers is meaningful. -/
def obtainImageData (newClient : Except Err DockerClient) (imageID : String) :
    Exec (Option (List String) × Option (List Byte) × Option Err) :=
  match newClient with
  | .error e => Exec.returned (none, none, some e)
  | .ok cli =>
    match cli.ImageHistory imageID with
    | .error e => Exec.returned (none, none, some e)
    | .ok hist =>
      match hist with
      | [] => Exec.panicked "index out of range [0] with length 0"
      | h0 :: _ =>
        let i := findLabel hist 0
        if (i : Int) ≥ (hist.length : Int) - 1 then
          Exec.returned (none, none, some (Err.leaf ("no " ++ labelString ++ " in Dockerfile")))
        else
          match hist.get? (i + 1) with
          | none => Exec.panicked "index out of range"
          | some h1 =>
            match countLayers cli [h0.ID, h1.ID] [] with
            | .error e => Exec.returned (none, none, some e)
            | .ok layerMap =>
              let layers := (layerMap.filter (fun kv => kv.2 = 1)).map (fun kv => kv.1)
              match cli.ImageInspectWithRaw imageID with
              | .error e => Exec.returned (none, none, some e)
              | .ok inspt =>
                match cli.ImageSave [inspt.ID] with
                | .error e => Exec.returned (none, none, some e)
                | .ok img => Exec.returned (some layers, some img, none)

/-- An entry the layer count includes: its size is non-zero, or its
created-by text does not contain "#(nop)". -/
def nonTrivial (h : HistoryResponseItem) : Bool :=
  h.Size ≠ 0 || !stringsContains h.CreatedBy "#(nop)"

/-- An entry whose created-by text contains the marker label. -/
def carriesMarker (h : HistoryResponseItem) : Bool :=
  stringsContains h.CreatedBy labelString

/-- A docker client that answers every inspection with the layer list
`layers`, every history request with `hist` and every save with an empty
stream. -/
def fixedClient (layers : List String) (hist : List HistoryResponseItem) : DockerClient where
  ImageInspectWithRaw := fun _ => .ok ⟨"sha256:img", layers⟩
  ImageHistory := fun _ => .ok hist
  ImageSave := fun _ => .ok []

/-- History entry of a `LABEL` step as the classic builder records it. -/
def classicMarker : HistoryResponseItem :=
  ⟨"<missing>", 0, "/bin/sh -c #(nop)  LABEL com.senetas.crypto.enabled=true"⟩

/-- History entry of a `LABEL` step recorded without the `#(nop)` prefix. -/
def plainMarker : HistoryResponseItem :=
  ⟨"<missing>", 0, "LABEL com.senetas.crypto.enabled=true"⟩

/-- History entry of a `RUN` step that wrote 5 bytes. -/
def runEntry : HistoryResponseItem :=
  ⟨"<missing>", 5, "/bin/sh -c echo hi > /f"⟩

/-! ## The operating system: files -/

/-- The disk: the content of the file at each path, `none` where there is
no file. -/
abbrev Disk := String → Option (List Byte)

/-- Replace the entry of one path. -/
def Disk.set (d : Disk) (p : String) (c : Option (List Byte)) : Disk :=
  fun q => if q = p then c else d q

/-- The failures the operating system may answer with: for each call and
path, the error it returns, `none` when it does not fail. A write may fail
depending on how many bytes the file already holds. -/
structure OS where
  openErr : String → Option Err
  createErr : String → Option Err
  writeErr : String → Nat → Option Err
  closeErr : String → Option Err
  removeErr : String → Option Err

/-- An operating system on which no call fails. -/
def OS.healthy : OS where
  openErr := fun _ => none
  createErr := fun _ => none
  writeErr := fun _ _ => none
  closeErr := fun _ => none
  removeErr := fun _ => none

/-- An open or closed `*os.File`. -/
structure Handle where
  path : String
  closed : Bool

/-- `os.Open(p)`: fails when there is no file at `p`. -/
def osOpen (os : OS) (d : Disk) (p : String) : Except Err Handle :=
  match os.openErr p with
  | some e => .error e
  | none =>
    match d p with
    | none => .error osErrNotExist
    | some _ => .ok ⟨p, false⟩

/-- `os.Create(p)`: creates the file or truncates it. -/
def osCreate (os : OS) (d : Disk) (p : String) : Disk × Except Err Handle :=
  match os.createErr p with
  | some e => (d, .error e)
  | none => (d.set p (some []), .ok ⟨p, false⟩)

/-- `fh.Write(chunk)` on a handle all of whose writes so far went to the
end of its file: the chunk is appended, or nothing is written and the error
is returned. -/
def fileWrite (os : OS) (d : Disk) (fh : Handle) (chunk : List Byte) : Disk × Option Err :=
  if fh.closed then (d, some osErrClosed)
  else
    match d fh.path with
    | none => (d, none)
    | some c =>
      match os.writeErr fh.path c.length with
      | some e => (d, some e)
      | none => (d.set fh.path (some (c ++ chunk)), none)

/-- `fh.Close()`: `os.ErrClosed` on a closed handle; otherwise the handle is
closed, whatever the call returns. -/
def fileClose (os : OS) (fh : Handle) : Handle × Option Err :=
  if fh.closed then (fh, some osErrClosed)
  else ({ fh with closed := true }, os.closeErr fh.path)

/-- `os.Remove(p)`. -/
def osRemove (os : OS) (d : Disk) (p : String) : Disk × Option Err :=
  match os.removeErr p with
  | some e => (d, some e)
  | none =>
    match d p with
    | none => (d, some osErrNotExist)
    | some _ => (d.set p none, none)

/-- Modelled from the spec: `utils.CheckedClose(closer, err)`, which is not
among the sources. It closes `closer`; the spec has that a failing close is
combined with the error already at hand and neither is dropped. The argument
`closeErr` is what `closer.Close()` returned. -/
def CheckedClose (closeErr : Option Err) (err : Option Err) : Option Err :=
  match closeErr, err with
  | none, err => err
  | some e2, none => some e2
  | some e2, some e => some (Err.errors [some e, some e2])

/-! ## Content digests (`opencontainers/go-digest`) -/

/-- A `digest.Digest`: `algorithm:encoded`. -/
structure Digest where
  algorithm : String
  encoded : String
  deriving DecidableEq

/-- The libraries the code calls that the model does not look into:
`hash alg b` is the hex form of the hash of `b` under the go-digest algorithm
`alg`, `atoi` is `strconv.Atoi`, `join` is `filepath.Join` of two elements. -/
structure GoLib where
  hash : String → List Byte → String
  atoi : String → Except Err Int
  join : String → String → String

/-- `digest.Canonical`. -/
def digestCanonical : String := "sha256"

/-- `digest.NewDigest(alg, h)` for a hash `h` that has been given `fed`. -/
def NewDigest (lib : GoLib) (alg : String) (fed : List Byte) : Digest :=
  ⟨alg, lib.hash alg fed⟩

/-- `Algorithm.Available()` of go-digest: the algorithm is an entry of the
table `algorithms`, whose hashes the library links in itself. For any other
algorithm `Algorithm.Hash()`, and with it `d.Verifier()`, panics. -/
def algorithmAvailable (alg : String) : Bool :=
  decide (alg = "sha256") || decide (alg = "sha384") || decide (alg = "sha512")

/-- The message of the panic of `Algorithm.Hash()` for an algorithm that is
not available. -/
def hashPanic (alg : String) : String :=
  if alg = "" then "empty digest algorithm, validate before calling Algorithm.Hash()"
  else alg ++ " not available (make sure it is imported)"

/-- `vw.Verified()` for a verifier `vw` that `d.Verifier()` has returned, so
for an available algorithm, after it has been given `fed`: the expected
digest equals the digest of what was written. -/
def Verified (lib : GoLib) (d : Digest) (fed : List Byte) : Bool :=
  decide (d = NewDigest lib d.algorithm fed)

/-! ## Streamed encryption of a file (`crypto/file.go`) -/

/-- The constant `sio.Version20`. -/
def sioVersion20 : Byte := 0x20

/-- The constant `sio.AES_256_GCM`. -/
def sioAES_256_GCM : Byte := 0

/-- The fields of `sio.Config` the code sets. -/
structure SioConfig where
  MinVersion : Byte
  MaxVersion : Byte
  CipherSuites : List Byte
  Key : List Byte
  deriving DecidableEq

/-- What a streaming call does to its destination when no write fails: the
chunks it passes to `Write`, in order, and the error it ends with, if any
(a failed read of the source, a rejected key, a failed authentication). -/
structure Run where
  chunks : List (List Byte)
  err : Option Err

/-- The library `minio/sio`: for a configuration and the content of the
source, what `sio.Encrypt` and `sio.Decrypt` do. -/
structure Sio where
  Encrypt : SioConfig → List Byte → Run
  Decrypt : SioConfig → List Byte → Run

/-- Pass the chunks to `write` in order until one write fails: the state,
the number of bytes written and the error of the failed write. -/
def writeAll {σ : Type} (write : σ → List Byte → σ × Option Err) :
    σ → List (List Byte) → Nat → σ × Nat × Option Err
  | s, [], n => (s, n, none)
  | s, c :: cs, n =>
    match write s c with
    | (s1, some e) => (s1, n, some e)
    | (s1, none) => writeAll write s1 cs (n + c.length)

/-- A call `sio.Encrypt(dst, src, cfg)` or `sio.Decrypt(dst, src, cfg)` whose
run is `run`, on the destination `write`: it returns the number of bytes
written and the first error, that of a write or that of the run. -/
def sioCopy {σ : Type} (run : Run) (write : σ → List Byte → σ × Option Err) (s : σ) :
    σ × Nat × Option Err :=
  match writeAll write s run.chunks 0 with
  | (s1, n, some e) => (s1, n, some e)
  | (s1, n, none) => (s1, n, run.err)

/-- `Write` of `io.MultiWriter(digester.Hash(), outFH)`: the hash takes the
chunk first and never fails, then the file. The state is the bytes given to
the hash and the disk. -/
def hashAndFileWrite (os : OS) (outFH : Handle) (s : List Byte × Disk) (chunk : List Byte) :
    (List Byte × Disk) × Option Err :=
  match fileWrite os s.2 outFH chunk with
  | (d, e) => ((s.1 ++ chunk, d), e)

/-- The call `sio.Encrypt(mw, inFH, cfg)` of `EncFile`, with the `cfg`
literal of `EncFile` and `mw = io.MultiWriter(digester.Hash(), outFH)`; the
source is read from the disk as it is after `outFH` was created. -/
def encryptStep (os : OS) (sio : Sio) (disk1 : Disk) (inFH outFH : Handle) (key : List Byte) :
    (List Byte × Disk) × Nat × Option Err :=
  let cfg : SioConfig :=
    { MinVersion := sioVersion20
      MaxVersion := sioVersion20
      CipherSuites := [sioAES_256_GCM]
      Key := key }
  sioCopy (sio.Encrypt cfg ((disk1 inFH.path).getD [])) (hashAndFileWrite os outFH) ([], disk1)

/-- The call `sio.Decrypt(outFH, inFH, cfg)` of `DecFile`, with the `cfg`
literal of `DecFile`. -/
def decryptStep (os : OS) (sio : Sio) (disk1 : Disk) (inFH outFH : Handle)
    (datakey : List Byte) : Disk × Nat × Option Err :=
  let cfg : SioConfig :=
    { MinVersion := sioVersion20
      MaxVersion := sioVersion20
      CipherSuites := [sioAES_256_GCM]
      Key := datakey }
  sioCopy (sio.Decrypt cfg ((disk1 inFH.path).getD []))
    (fun d chunk => fileWrite os d outFH chunk) disk1

/-- What `EncFile` returns, and the disk it leaves. -/
structure EncResult where
  disk : Disk
  d : Option Digest
  size : Nat
  err : Option Err

/-- `EncFile` of `crypto/file.go`. The two deferred `CheckedClose` calls run
after the `return`, the one for `outFH` first, and change only `err`. -/
def EncFile (os : OS) (sio : Sio) (lib : GoLib) (disk : Disk) (infile outfile : String)
    (key : List Byte) : EncResult :=
  match osOpen os disk infile with
  | .error e => ⟨disk, none, 0, some (Err.wrap e ("could not open file " ++ infile))⟩
  | .ok inFH =>
    match osCreate os disk outfile with
    | (disk1, .error e) =>
      ⟨disk1, none, 0,
        CheckedClose (fileClose os inFH).2
          (some (Err.wrap e ("could not create file " ++ outfile)))⟩
    | (disk1, .ok outFH) =>
      match encryptStep os sio disk1 inFH outFH key with
      | ((_, disk2), _, some err) =>
        let (outFH2, err2) := fileClose os outFH
        let (disk3, err3) := osRemove os disk2 outfile
        let err3 := errorsWrapf err3
          ("warning, unauthenticated file could not be removed: " ++ outfile)
        ⟨disk3, none, 0,
          CheckedClose (fileClose os inFH).2
            (CheckedClose (fileClose os outFH2).2 (some (Err.errors [some err, err2, err3])))⟩
      | ((fed, disk2), size, none) =>
        let ds := NewDigest lib digestCanonical fed
        ⟨disk2, some ds, size,
          CheckedClose (fileClose os inFH).2 (CheckedClose (fileClose os outFH).2 none)⟩

/-- `DecFile` of `crypto/file.go`: the error it returns and the disk it
leaves. -/
def DecFile (os : OS) (sio : Sio) (disk : Disk) (infile outfile : String)
    (datakey : List Byte) : Disk × Option Err :=
  match osOpen os disk infile with
  | .error e => (disk, some (Err.wrap e ("could not open file " ++ infile)))
  | .ok inFH =>
    match osCreate os disk outfile with
    | (disk1, .error e) =>
      (disk1, CheckedClose (fileClose os inFH).2
        (some (Err.wrap e ("could not create file " ++ outfile))))
    | (disk1, .ok outFH) =>
      match decryptStep os sio disk1 inFH outFH datakey with
      | (disk2, _, some err) =>
        let (outFH2, err2) := fileClose os outFH
        let (disk3, err3) := osRemove os disk2 outfile
        let err3 := errorsWrapf err3
          ("warning, unauthenticated file could not be removed: " ++ outfile)
        (disk3, CheckedClose (fileClose os inFH).2
          (CheckedClose (fileClose os outFH2).2 (some (Err.errors [some err, err2, err3]))))
      | (disk2, _, none) =>
        (disk2, CheckedClose (fileClose os inFH).2 (CheckedClose (fileClose os outFH).2 none))

/-- The configuration the specification names: protocol version 2.0 as the
only version, AES-256-GCM as the only cipher suite. -/
def dare20 (key : List Byte) : SioConfig :=
  ⟨sioVersion20, sioVersion20, [sioAES_256_GCM], key⟩

/-- The error `sio: unexpected EOF` of `minio/sio`. -/
def sioErrUnexpectedEOF : Err := Err.leaf "sio: unexpected EOF"

/-- What `minio/sio` does with the empty source under protocol version 2.0
and a 32 byte key: `Encrypt` reads the end of the source before it has a
byte, writes nothing and returns nil; `Decrypt` finds no final package in the
empty stream, writes nothing and returns `sio: unexpected EOF`. -/
def Sio.emptySource (sio : Sio) : Prop :=
  ∀ cfg : SioConfig, cfg.Key.length = 32 →
    sio.Encrypt cfg [] = ⟨[], none⟩ ∧ sio.Decrypt cfg [] = ⟨[], some sioErrUnexpectedEOF⟩

/-- A stand-in for `minio/sio` to run the model on. With a 32 byte key and a
source that is not empty, encryption writes a one-byte header and then the
source as it is, and decryption checks the header and writes the rest; at the
empty source it does what the library does, see `Sio.emptySource`; any other
key is rejected. -/
def toySio : Sio where
  Encrypt := fun cfg src =>
    if cfg.Key.length = 32 then
      match src with
      | [] => ⟨[], none⟩
      | _ :: _ => ⟨[[cfg.MaxVersion], src], none⟩
    else ⟨[], some (Err.leaf "sio: invalid key size")⟩
  Decrypt := fun cfg src =>
    if cfg.Key.length = 32 then
      match src with
      | [] => ⟨[], some sioErrUnexpectedEOF⟩
      | v :: rest =>
        if v = cfg.MaxVersion then ⟨[rest], none⟩
        else ⟨[], some (Err.leaf "sio: data is not authentic")⟩
    else ⟨[], some (Err.leaf "sio: invalid key size")⟩

/-- A stand-in for the libraries: the "hash" is the number of bytes, after
the algorithm name, and `atoi` reads unsigned decimal numbers only. -/
def toyLib : GoLib where
  hash := fun alg b => alg ++ "-" ++ toString b.length
  atoi := fun s =>
    if s.toList ≠ [] ∧ s.toList.all Char.isDigit then
      .ok (s.toList.foldl (fun n c => 10 * n + ((c.toNat : Int) - 48)) 0)
    else .error (Err.leaf "strconv.Atoi: invalid syntax")
  join := fun dir name => dir ++ "/" ++ name

/-- A 32 byte key. -/
def key32 : List Byte := List.replicate 32 7

/-- A disk with the single file `in`, which is empty. -/
def diskEmptyIn : Disk := fun p => if p = "in" then some [] else none

/-- A disk with the single file `in` holding the bytes 1, 2, 3. -/
def diskIn : Disk := fun p => if p = "in" then some [1, 2, 3] else none

/-- An encrypted file whose first byte was changed: `toySio` refuses it. -/
def diskTampered : Disk := fun p => if p = "in" then some [0x21, 1, 2, 3] else none

/-! ## Verified blob download (`registry/pull.go`) -/

/-- `err == io.EOF`. -/
def Err.isEOF : Err → Bool
  | Err.leaf "EOF" => true
  | _ => false

/-- `resp.Body`: the bytes still to be delivered and how the stream ends
after them, with `io.EOF` (`none`) or with a read error. -/
structure Body where
  data : List Byte
  readErr : Option Err

/-- What the code reads of an `*http.Response`. -/
structure Response where
  StatusCode : Nat
  ContentLength : String
  Body : Body

/-- The constant `http.StatusOK`. -/
def httpStatusOK : Nat := 200

/-- The state the copy loop of `respond` changes: the bytes the verifier has
been given, the bytes `fh.Write` has accepted, the count of the progress bar,
and the disk. -/
structure CopyState where
  fed : List Byte
  written : List Byte
  bar : Nat
  disk : Disk

/-- `Write` of `io.MultiWriter(vw, fh, bar)`: the writers take the chunk in
this order and the first error ends the call; the verifier and the bar do
not fail. -/
def respondWrite (os : OS) (fh : Handle) (s : CopyState) (chunk : List Byte) :
    CopyState × Option Err :=
  match fileWrite os s.disk fh chunk with
  | (d, some e) => ({ s with fed := s.fed ++ chunk, disk := d }, some e)
  | (d, none) =>
    ({ fed := s.fed ++ chunk, written := s.written ++ chunk,
       bar := s.bar + chunk.length, disk := d }, none)

/-- `io.CopyN(dst, src, n)` for `n > 0`: up to `n` bytes of the body are
passed to `write`; the result is `nil` when `n` bytes were copied, the write
error when the write failed, and otherwise the end of the stream, `io.EOF` or
the read error. The bytes read in one call are written as one chunk. -/
def ioCopyN {σ : Type} (write : σ → List Byte → σ × Option Err) (s : σ) (body : Body) (n : Nat) :
    σ × Body × Option Err :=
  let chunk := body.data.take n
  let rest : Body := { body with data := body.data.drop n }
  match (if chunk.isEmpty then (s, none) else write s chunk) with
  | (s1, some e) => (s1, rest, some e)
  | (s1, none) =>
    if chunk.length = n then (s1, rest, none)
    else (s1, rest, some (body.readErr.getD ioEOF))

/-- How the `for` loop of `respond` ends: by `break`, with `err == io.EOF`, or
by the `return` of the wrapped error. -/
inductive LoopEnd where
  | broke (err : Err)
  | returned (err : Err)

/-- The `for` loop of `respond`, with the number of iterations it may still
make; `none` when they are used up. The timer is not part of the model: a
timeout shows as a read error of the body. -/
def respondLoop (os : OS) (fn : String) (fh : Handle) :
    Nat → CopyState → Body → Option (CopyState × LoopEnd)
  | 0, _, _ => none
  | fuel + 1, s, body =>
    match ioCopyN (respondWrite os fh) s body 512 with
    | (s1, _, some err) =>
      if err.isEOF then some (s1, LoopEnd.broke err)
      else some (s1, LoopEnd.returned (Err.wrap err ("filename = " ++ fn)))
    | (s1, rest, none) => respondLoop os fn fh fuel s1 rest

/-- What `quitUnVerified` returns and leaves behind. -/
structure QuitResult where
  disk : Disk
  fh : Handle
  err : Option Err

/-- `quitUnVerified` of `registry/pull.go`. The first condition reads `err`,
the argument, while `err2` holds the result of `os.Remove`. -/
def quitUnVerified (os : OS) (disk : Disk) (fn : String) (fh : Handle) (err : Option Err) :
    QuitResult :=
  match osRemove os disk fn with
  | (disk1, err2) =>
    if err.isSome then
      ⟨disk1, fh, errorsWrapf (some (Err.errors [err, err2]))
        ("unverified data was NOT deleted. To clean manaually delete: " ++ fn)⟩
    else
      match fileClose os fh with
      | (fh1, some err2) =>
        ⟨disk1, fh1, errorsWrapf (some (Err.errors [err, some err2]))
          "digest verification failed, failed to close, but unverified data was deleted"⟩
      | (fh1, none) =>
        ⟨disk1, fh1, errorsWrapf err "digest verification failed, unverified data deleted"⟩

/-- What `respond` returns and leaves behind. -/
structure RespondResult where
  err : Option Err
  state : CopyState
  fh : Handle

/-- `respond` of `registry/pull.go`; `none` only if the loop were to need more
than `len(body) + 1` iterations. `d.Verifier()` panics when the algorithm of
the digest is not available, after the `Content-Length` has been read and
before a byte is copied. -/
def respond (lib : GoLib) (os : OS) (disk : Disk) (resp : Response) (d : Digest) (fn : String)
    (fh : Handle) : Option (Exec RespondResult) :=
  match lib.atoi resp.ContentLength with
  | .error e => some (Exec.returned ⟨some (Err.wrap e ""), ⟨[], [], 0, disk⟩, fh⟩)
  | .ok _ =>
    if algorithmAvailable d.algorithm = false then
      some (Exec.panicked (hashPanic d.algorithm))
    else
      match respondLoop os fn fh (resp.Body.data.length + 1) ⟨[], [], 0, disk⟩ resp.Body with
      | none => none
      | some (s, LoopEnd.returned err) => some (Exec.returned ⟨some err, s, fh⟩)
      | some (s, LoopEnd.broke err) =>
        if Verified lib d s.fed = false then
          match quitUnVerified os s.disk fn fh (some err) with
          | ⟨disk1, fh1, e⟩ => some (Exec.returned ⟨e, { s with disk := disk1 }, fh1⟩)
        else
          some (Exec.returned ⟨none, s, fh⟩)

/-- The answer of `httpclient.DoRequest` and whether the context is already
cancelled when `download` looks at it. -/
structure Network where
  blobURL : Except Err String
  newRequest : Except Err Unit
  doRequest : Except Err Response
  ctxDone : Bool

/-- `download` of `registry/pull.go`: the error it sends on `errChan` and the
disk it leaves; `none` only if `respond` were not to end. The deferred closes
run after the send and do not change the value sent. A panic of `respond`
ends the process, and nothing is sent. -/
def download (lib : GoLib) (os : OS) (disk : Disk) (net : Network) (fn : String) (d : Digest) :
    Option (Exec (Disk × Option Err)) :=
  match net.doRequest with
  | .error err => some (Exec.returned (disk, some err))
  | .ok resp =>
    if net.ctxDone then some (Exec.returned (disk, some (Err.leaf "request timed out")))
    else if resp.StatusCode ≠ httpStatusOK then
      some (Exec.returned (disk, some (Err.leaf ("Failed to download blob " ++ fn))))
    else
      match osCreate os disk fn with
      | (disk1, .error err) =>
        some (Exec.returned (disk1, some (Err.wrap err ("filename = " ++ fn))))
      | (disk1, .ok fh) =>
        match respond lib os disk1 resp d fn fh with
        | none => none
        | some (Exec.returned r) => some (Exec.returned (r.state.disk, r.err))
        | some (Exec.fatal msg) => some (Exec.fatal msg)
        | some (Exec.panicked msg) => some (Exec.panicked msg)

/-- `PullFromDigest` of `registry/pull.go`: the pair `(fn, err)` it returns
and the disk it leaves. It waits for the one value `download` sends; when
`download` panics the process ends and `PullFromDigest` does not return. -/
def PullFromDigest (lib : GoLib) (os : OS) (disk : Disk) (net : Network) (d : Digest)
    (dir : String) : Option (Exec (Disk × String × Option Err)) :=
  let fn := lib.join dir d.encoded
  match net.blobURL with
  | .error e => some (Exec.returned (disk, "", some (Err.wrap e "ref")))
  | .ok urlStr =>
    match net.newRequest with
    | .error e => some (Exec.returned (disk, "", some (Err.wrap e ("GET " ++ urlStr))))
    | .ok _ =>
      match download lib os disk net fn d with
      | none => none
      | some (Exec.returned (disk1, err)) => some (Exec.returned (disk1, fn, err))
      | some (Exec.fatal msg) => some (Exec.fatal msg)
      | some (Exec.panicked msg) => some (Exec.panicked msg)

/-- An operating system on which every write fails, as on a full disk, and
no other call does. -/
def OS.diskFull : OS :=
  { OS.healthy with writeErr := fun _ _ => some (Err.leaf "no space left on device") }

/-- A registry that answers the blob request in time with status 200, the
header `Content-Length: 3` and the given body, delivered without a read
error. -/
def okNetwork (body : List Byte) : Network where
  blobURL := .ok "https://registry.example/v2/repo/blobs/sha256:00"
  newRequest := .ok ()
  doRequest := .ok ⟨200, "3", ⟨body, none⟩⟩
  ctxDone := false

/-- An expected digest that no body has under `toyLib`. -/
def digest00 : Digest := ⟨"sha256", "00"⟩

/-- An expected digest under `md5`, an algorithm go-digest does not have. -/
def digestMd5 : Digest := ⟨"md5", "00"⟩

/-- The expected digest of every three byte body under `toyLib`. -/
def digest3 : Digest := ⟨"sha256", "sha256-3"⟩

/-- A disk with the single file `dir/00`, which is empty, as `os.Create`
leaves it. -/
def diskCreated : Disk := fun p => if p = "dir/00" then some [] else none

/-- A disk with the single file `dir/00` holding one byte. -/
def diskBlob : Disk := fun p => if p = "dir/00" then some [9] else none

/-! ## Key wrapping (`crypto/keyenc.go`, which is not among the sources) -/

/-- Modelled from the spec: the type `crypto.Algos`, a string in the code,
whose source is missing. The specification names two algorithms; the tests
also build values such as `Algos("mock")`. -/
inductive Algos where
  | None
  | Pbkdf2Aes256Gcm
  | other (name : String)
  deriving DecidableEq

/-- Modelled from the spec: the type `crypto.Opts`, whose source is missing:
algorithm, legacy-compatibility flag, passphrase. -/
structure Opts where
  Algos : Algos
  Compat : Bool
  passphrase : String

/-- Modelled from the spec: `(*Opts).SetPassphrase`, whose source is
missing. -/
def Opts.SetPassphrase (opts : Opts) (passphrase : String) : Opts :=
  { opts with passphrase := passphrase }

/-- Modelled from the spec: the cryptography the key wrapper calls, which is
missing with `crypto/keyenc.go`: a password-based key derivation from
passphrase and salt, and an authenticated encryption whose sealed form holds
whatever opening it needs besides the key. -/
structure KeyCipher where
  kdf : String → String → List Byte
  sealKey : List Byte → List Byte → List Byte → List Byte
  openKey : List Byte → List Byte → Option (List Byte)

/-- Modelled from the spec: the type `crypto.DeCrypto`, whose source is
missing: a data key, the algorithm it was created under, and the salt of its
blob. -/
structure DeCrypto where
  DecKey : List Byte
  Algos : Algos
  Salt : String
  deriving DecidableEq

/-- Modelled from the spec: the external form of a wrapped key, whose source
is missing: the bytes as they are, or with legacy compatibility the bytes
packed into a URL next to the name of the algorithm. -/
inductive KeyForm where
  | raw (bytes : List Byte)
  | url (algos : Algos) (bytes : List Byte)
  deriving DecidableEq

/-- Modelled from the spec: the type `crypto.EnCrypto`, whose source is
missing: a wrapped key with its algorithm tag and salt. -/
structure EnCrypto where
  EncKey : KeyForm
  Algos : Algos
  Salt : String
  deriving DecidableEq

/-- The error `utils.NewError("encryption type does not match decryption
type", false)` of `keyenc_test.go`. -/
def errTypeMismatch : Err :=
  Err.newError "encryption type does not match decryption type" false

/-- Modelled from the spec: `crypto.NewDecrypto`, whose source is missing: a
fresh data key for the algorithm of the options. The random key and the salt
are arguments. -/
def NewDecrypto (opts : Opts) (key : List Byte) (salt : String) : DeCrypto :=
  ⟨key, opts.Algos, salt⟩

/-- Modelled from the spec: `crypto.EncryptKey`, whose source is missing. A
key created under another algorithm than the one asked for is refused; `None`
passes the key through; the passphrase algorithm seals the key under the key
derived from passphrase and salt; the compatibility flag changes only the
external form. The random input of the sealing is the argument `nonce`. -/
def EncryptKey (C : KeyCipher) (nonce : List Byte) (d : DeCrypto) (opts : Opts) :
    Except Err EnCrypto :=
  if d.Algos ≠ opts.Algos then .error errTypeMismatch
  else
    match opts.Algos with
    | Algos.None => .ok ⟨KeyForm.raw d.DecKey, Algos.None, d.Salt⟩
    | Algos.Pbkdf2Aes256Gcm =>
      let sealed := C.sealKey (C.kdf opts.passphrase d.Salt) nonce d.DecKey
      if opts.Compat then
        .ok ⟨KeyForm.url Algos.Pbkdf2Aes256Gcm sealed, Algos.Pbkdf2Aes256Gcm, d.Salt⟩
      else .ok ⟨KeyForm.raw sealed, Algos.Pbkdf2Aes256Gcm, d.Salt⟩
    | Algos.other name => .error (Err.leaf ("unsupported algorithm " ++ name))

/-- Modelled from the spec: `crypto.DecryptKey`, whose source is missing. A
key wrapped under another algorithm than the one asked for is refused; `None`
passes the key through; the passphrase algorithm opens the sealed key and
fails when it does not authenticate. -/
def DecryptKey (C : KeyCipher) (e : EnCrypto) (opts : Opts) : Except Err DeCrypto :=
  if e.Algos ≠ opts.Algos then .error errTypeMismatch
  else
    match opts.Algos with
    | Algos.None =>
      match e.EncKey with
      | KeyForm.raw key => .ok ⟨key, Algos.None, e.Salt⟩
      | KeyForm.url _ _ => .error (Err.leaf "malformed key")
    | Algos.Pbkdf2Aes256Gcm =>
      let sealed : Option (List Byte) :=
        match opts.Compat, e.EncKey with
        | true, KeyForm.url Algos.Pbkdf2Aes256Gcm bytes => some bytes
        | false, KeyForm.raw bytes => some bytes
        | _, _ => none
      match sealed with
      | none => .error (Err.leaf "malformed key")
      | some bytes =>
        match C.openKey (C.kdf opts.passphrase e.Salt) bytes with
        | none => .error (Err.leaf "cipher: message authentication failed")
        | some key => .ok ⟨key, Algos.Pbkdf2Aes256Gcm, e.Salt⟩
    | Algos.other name => .error (Err.leaf ("unsupported algorithm " ++ name))

/-- A stand-in for the cryptography to run the model on: the derived key is
the passphrase followed by the salt, sealing puts the derived key in front
of the plaintext, and opening checks the derived key and removes it. -/
def toyCipher : KeyCipher where
  kdf := fun passphrase salt => (passphrase ++ salt).toList.map (fun c => c.toNat.toUInt8)
  sealKey := fun kek _ plaintext => kek ++ plaintext
  openKey := fun kek sealed =>
    if kek.isPrefixOf sealed then some (sealed.drop kek.length) else none

/-- The options of `keyenc_test.go`, with the passphrase of the tests set. -/
def optsPbkdf2 : Opts := Opts.SetPassphrase ⟨Algos.Pbkdf2Aes256Gcm, false, ""⟩ "hunter2"

/-- The options `optsNone` of `keyenc_test.go`, with the passphrase set. -/
def optsNone : Opts := Opts.SetPassphrase ⟨Algos.None, false, ""⟩ "hunter2"

/-- The options `optsCompat` of `keyenc_test.go`, with the passphrase set. -/
def optsCompat : Opts := Opts.SetPassphrase ⟨Algos.Pbkdf2Aes256Gcm, true, ""⟩ "hunter2"

/-- The entry of `layerMap` for a key, 0 when the key is absent. -/
def layerMapCount : List (String × Nat) → String → Nat
  | [], _ => 0
  | (k, v) :: rest, x => if k = x then v else layerMapCount rest x

/-- A docker client for two images: the image `base` with the layers `B`, and
any other reference, the image `top`, with the layers `A`; the history of
`top` has one step above the marker and the image `base` below it. -/
def twoImageClient (A B : List String) : DockerClient where
  ImageInspectWithRaw := fun ref =>
    if ref = "base" then .ok ⟨"base", B⟩ else .ok ⟨"top", A⟩
  ImageHistory := fun _ =>
    .ok [⟨"top", 5, "/bin/sh -c echo hi > /f"⟩,
         ⟨"marker", 0, "/bin/sh -c #(nop)  LABEL com.senetas.crypto.enabled=true"⟩,
         ⟨"base", 9, "/bin/sh -c #(nop) ADD file:0 in /"⟩]
  ImageSave := fun _ => .ok []

/-! ## Pulling an image (`registry/pull.go`) -/

/-- Modelled from the spec: an entry of `distribution.ImageManifest`, the
config or a layer; the package `distribution` is not among the sources. It
holds the digest and size of the stored blob, the local filename, and the
optional crypto metadata: the wrapped key and, once unwrapped, the data
key. -/
structure Blob where
  Digest : Digest
  Size : Int
  Filename : String
  EnCrypto : Option EnCrypto
  DeCrypto : Option DeCrypto

/-- Modelled from the spec: `GetDigest` of a manifest entry, whose source is
missing. -/
def Blob.GetDigest (b : Blob) : CryptoCli.Digest := b.Digest

/-- Modelled from the spec: `SetFilename` of a manifest entry, whose source is
missing: it records the local filename on the entry, and the manifest sees
the change. -/
def Blob.SetFilename (b : Blob) (filename : String) : Blob :=
  { b with Filename := filename }

/-- Modelled from the spec: `distribution.ImageManifest`, whose source is
missing. -/
structure ImageManifest where
  SchemaVersion : Int
  MediaType : String
  DirName : String
  Config : Blob
  Layers : List Blob

/-- What the registry and the libraries answer to `PullManifest`: the URL
built for the reference, the request, the response with the text of its
status, the result of closing its body, and `json.Unmarshal` into a manifest
with the given `DirName`. -/
structure ManifestNetwork where
  manifestURL : Except Err String
  newRequest : Except Err Unit
  doRequest : Except Err Response
  status : String
  closeErr : Option Err
  unmarshal : String → List Byte → Except Err ImageManifest

/-- `PullManifest` of `registry/pull.go`: the pair `(manifest, err)`. Once a
response is there, the deferred `CheckedClose` of its body runs after every
`return` and changes `err`. -/
def PullManifest (net : ManifestNetwork) (dir : String) : Option ImageManifest × Option Err :=
  match net.manifestURL with
  | .error e => (none, some (Err.wrap e "ref"))
  | .ok urlStr =>
    match net.newRequest with
    | .error e => (none, some (Err.wrap e ("GET " ++ urlStr)))
    | .ok _ =>
      match net.doRequest with
      | .error err => (none, some err)
      | .ok resp =>
        if resp.StatusCode ≠ httpStatusOK then
          (none, CheckedClose net.closeErr
            (some (Err.leaf ("manifest download failed with status: " ++ net.status))))
        else
          match resp.Body.readErr with
          | some err => (none, CheckedClose net.closeErr (some (Err.wrap err "")))
          | none =>
            match net.unmarshal dir resp.Body.data with
            | .error err => (none, CheckedClose net.closeErr (some (Err.wrap err "")))
            | .ok manifest => (some manifest, CheckedClose net.closeErr none)

/-- The stages of `PullImage`. -/
inductive Stage where
  | manifestFetch
  | keyUnwrap
  | configDownload (d : Digest)
  | layerDownload (d : Digest)
  deriving DecidableEq

/-- What `PullImage` returns and leaves behind. The trace is not a value of
the code: it lists the calls `PullImage` has made, `PullManifest`,
`DecryptKeys` and `PullFromDigest`, in the order of the calls, each with the
error it returned. -/
structure PullResult where
  manifest : Option ImageManifest
  err : Option Err
  trace : List (Stage × Option Err)
  disk : Disk

/-- The loop over `manifest.Layers` in `PullImage`: one `PullFromDigest` for
each layer in order, the filename recorded on the layer; the first error
ends the function, and a panic ends the process. The result is `none` only if
a download were not to end. -/
def pullLayers (lib : GoLib) (os : OS) (blob : Digest → Network) (downloadDir : String) :
    List Blob → Disk → List (Stage × Option Err) →
      Option (Exec (Disk × List (Stage × Option Err) × Except Err (List Blob)))
  | [], disk, trace => some (Exec.returned (disk, trace, .ok []))
  | l :: ls, disk, trace =>
    match PullFromDigest lib os disk (blob l.GetDigest) l.GetDigest downloadDir with
    | none => none
    | some (Exec.fatal msg) => some (Exec.fatal msg)
    | some (Exec.panicked msg) => some (Exec.panicked msg)
    | some (Exec.returned (disk1, _, some err)) =>
      some (Exec.returned
        (disk1, trace ++ [(Stage.layerDownload l.GetDigest, some err)], .error err))
    | some (Exec.returned (disk1, filename, none)) =>
      match pullLayers lib os blob downloadDir ls disk1
          (trace ++ [(Stage.layerDownload l.GetDigest, none)]) with
      | none => none
      | some (Exec.fatal msg) => some (Exec.fatal msg)
      | some (Exec.panicked msg) => some (Exec.panicked msg)
      | some (Exec.returned (disk2, trace2, .error err)) =>
        some (Exec.returned (disk2, trace2, .error err))
      | some (Exec.returned (disk2, trace2, .ok ls1)) =>
        some (Exec.returned (disk2, trace2, .ok (l.SetFilename filename :: ls1)))

/-- `PullImage` of `registry/pull.go`. The token, the reference and the
endpoint only feed the requests, whose answers are the arguments `mnet` and
`blob`; `decryptKeys` is `manifest.DecryptKeys(opts, ref)`, whose source is
missing: the error it returns, or the manifest with its keys unwrapped. A nil
manifest with a nil error would make `PullImage` panic, and so does a
download that panics. -/
def PullImage (lib : GoLib) (os : OS) (disk : Disk) (mnet : ManifestNetwork)
    (decryptKeys : ImageManifest → Except Err ImageManifest) (blob : Digest → Network)
    (downloadDir : String) : Option (Exec PullResult) :=
  match PullManifest mnet downloadDir with
  | (_, some err) =>
    some (Exec.returned ⟨none, some err, [(Stage.manifestFetch, some err)], disk⟩)
  | (none, none) => some (Exec.panicked "invalid memory address or nil pointer dereference")
  | (some manifest0, none) =>
    match decryptKeys manifest0 with
    | .error err =>
      some (Exec.returned ⟨none, some err,
        [(Stage.manifestFetch, none), (Stage.keyUnwrap, some err)], disk⟩)
    | .ok manifest =>
      match PullFromDigest lib os disk (blob manifest.Config.GetDigest)
          manifest.Config.GetDigest downloadDir with
      | none => none
      | some (Exec.fatal msg) => some (Exec.fatal msg)
      | some (Exec.panicked msg) => some (Exec.panicked msg)
      | some (Exec.returned (disk1, _, some err)) =>
        some (Exec.returned ⟨none, some err,
          [(Stage.manifestFetch, none), (Stage.keyUnwrap, none),
           (Stage.configDownload manifest.Config.GetDigest, some err)], disk1⟩)
      | some (Exec.returned (disk1, filename, none)) =>
        match pullLayers lib os blob downloadDir manifest.Layers disk1
            [(Stage.manifestFetch, none), (Stage.keyUnwrap, none),
             (Stage.configDownload manifest.Config.GetDigest, none)] with
        | none => none
        | some (Exec.fatal msg) => some (Exec.fatal msg)
        | some (Exec.panicked msg) => some (Exec.panicked msg)
        | some (Exec.returned (disk2, trace, .error err)) =>
          some (Exec.returned ⟨none, some err, trace, disk2⟩)
        | some (Exec.returned (disk2, trace, .ok layers)) =>
          some (Exec.returned
            ⟨some { manifest with Config := manifest.Config.SetFilename filename,
                                  Layers := layers },
              none, trace, disk2⟩)

/-- One call of `PullFromDigest` as `PullImage` makes it: the digest asked
for, and the filename and the error returned. -/
structure DownloadCall where
  d : Digest
  filename : String
  err : Option Err

/-- The downloads as the specification lays them out for a list of digests:
one `PullFromDigest` for each digest in the order of the list, each on the
disk the one before has left, and none after the first that returns an
error. The result is the disk left and the calls made; a download that panics
ends the process. -/
def downloadsInOrder (lib : GoLib) (os : OS) (blob : Digest → Network) (dir : String) :
    List Digest → Disk → Option (Exec (Disk × List DownloadCall))
  | [], disk => some (Exec.returned (disk, []))
  | d :: ds, disk =>
    match PullFromDigest lib os disk (blob d) d dir with
    | none => none
    | some (Exec.fatal msg) => some (Exec.fatal msg)
    | some (Exec.panicked msg) => some (Exec.panicked msg)
    | some (Exec.returned (disk1, filename, some err)) =>
      some (Exec.returned (disk1, [⟨d, filename, some err⟩]))
    | some (Exec.returned (disk1, filename, none)) =>
      match downloadsInOrder lib os blob dir ds disk1 with
      | none => none
      | some (Exec.fatal msg) => some (Exec.fatal msg)
      | some (Exec.panicked msg) => some (Exec.panicked msg)
      | some (Exec.returned (disk2, calls)) =>
        some (Exec.returned (disk2, ⟨d, filename, none⟩ :: calls))

/-- The digests `PullImage` has to download for a manifest: that of the
config, then those of the layers in manifest order. -/
def digestsOf (manifest : ImageManifest) : List Digest :=
  manifest.Config.Digest :: manifest.Layers.map (fun l => l.Digest)

/-- The error of the last of the calls made, nil when there is none. -/
def lastErr (calls : List DownloadCall) : Option Err :=
  match calls.getLast? with
  | none => none
  | some c => c.err

/-- The manifest with the filenames of the calls recorded: that of the first
call on the config, those of the following calls on the layers in order. -/
def withFilenames (manifest : ImageManifest) (calls : List DownloadCall) : ImageManifest :=
  match calls with
  | [] => manifest
  | c :: cs =>
    { manifest with
      Config := manifest.Config.SetFilename c.filename
      Layers := List.zipWith (fun l (c : DownloadCall) => l.SetFilename c.filename)
        manifest.Layers cs }

/-- The stages of the calls made: the first is the download of the config,
the following are those of the layers. -/
def callStages (calls : List DownloadCall) : List (Stage × Option Err) :=
  match calls with
  | [] => []
  | c :: cs =>
    (Stage.configDownload c.d, c.err) :: cs.map (fun c => (Stage.layerDownload c.d, c.err))

/-- The manifest `PullImage` returns after the calls made: nil when the last
call returned an error, and otherwise the manifest with the filenames of the
calls recorded. -/
def pulledManifest (manifest : ImageManifest) (calls : List DownloadCall) :
    Option ImageManifest :=
  match lastErr calls with
  | some _ => none
  | none => some (withFilenames manifest calls)

/-- A manifest with a config and one layer, both with the digest of every
three byte blob under `toyLib`. -/
def manifest3 : ImageManifest :=
  ⟨2, "application/vnd.docker.distribution.manifest.v2+json", "dir",
    ⟨digest3, 3, "", none, none⟩, [⟨digest3, 3, "", none, none⟩]⟩

/-- A registry that answers the manifest request with status 200 and a body
that parses to `manifest3`. -/
def manifestNet3 : ManifestNetwork where
  manifestURL := .ok "https://registry.example/v2/repo/manifests/latest"
  newRequest := .ok ()
  doRequest := .ok ⟨200, "2", ⟨[123, 125], none⟩⟩
  status := "200 OK"
  closeErr := none
  unmarshal := fun _ _ => .ok manifest3

/-- A manifest with the config `sha256:00` and no layer. -/
def manifest00 : ImageManifest :=
  ⟨2, "application/vnd.docker.distribution.manifest.v2+json", "dir",
    ⟨digest00, 3, "", none, none⟩, []⟩

/-- A registry that answers the manifest request with status 200 and a body
that parses to `manifest00`. -/
def manifestNet : ManifestNetwork where
  manifestURL := .ok "https://registry.example/v2/repo/manifests/latest"
  newRequest := .ok ()
  doRequest := .ok ⟨200, "2", ⟨[123, 125], none⟩⟩
  status := "200 OK"
  closeErr := none
  unmarshal := fun _ _ => .ok manifest00

/-- A registry that does not answer the manifest request. -/
def manifestNetDown : ManifestNetwork where
  manifestURL := .ok "https://registry.example/v2/repo/manifests/latest"
  newRequest := .ok ()
  doRequest := .error (Err.leaf "connection refused")
  status := ""
  closeErr := none
  unmarshal := fun _ _ => .ok manifest00

/-! ## Assembling the layers (`images/imageOutput.go`) -/

/-- Modelled from the spec: the crypto metadata of an entry of
`types.LayerJSON`, whose source is missing; when the entry is built it holds
the data key of the blob. -/
structure CryptoJSON where
  DecKey : List Byte
  deriving DecidableEq

/-- Modelled from the spec: `types.LayerJSON`, an entry for the config or for
a layer, whose source is missing: the stored file, its digest and size, and
the crypto metadata, nil on a blob left unencrypted. -/
structure LayerJSON where
  Filename : String
  Digest : Option Digest
  Size : Nat
  Crypto : Option CryptoJSON
  deriving DecidableEq

/-- Modelled from the spec: `types.NewLayerJSON`, whose source is missing: an
entry with crypto metadata holding the data key. -/
def NewLayerJSON (filename : String) (d : Option Digest) (size : Nat) (key : List Byte) :
    LayerJSON :=
  ⟨filename, d, size, some ⟨key⟩⟩

/-- Modelled from the spec: `types.NewPlainLayerJSON`, whose source is
missing: an entry with no crypto metadata. -/
def NewPlainLayerJSON (filename : String) (d : Option Digest) (size : Nat) : LayerJSON :=
  ⟨filename, d, size, none⟩

/-- Modelled from the spec: `types.NewConfigJSON`, whose source is missing: an
entry with crypto metadata holding the data key. -/
def NewConfigJSON (filename : String) (d : Option Digest) (size : Nat) (key : List Byte) :
    LayerJSON :=
  ⟨filename, d, size, some ⟨key⟩⟩

/-- The local type `configLayers` of `findLayers`. -/
structure ConfigLayers where
  Config : String
  Layers : List String

/-- The libraries and failures `findLayers` meets besides those of `OS`:
the output of gzip for a content, a failure of the compression of a file,
`crypto/rand.Read` for each call in turn and each length, `json.Unmarshal`
of the archive manifest, a failed read of a file, a failed `os.Stat`. -/
structure Packer where
  gzip : List Byte → List Byte
  compressErr : String → Option Err
  randRead : Nat → Nat → Except Err (List Byte)
  unmarshal : List Byte → Except Err (List ConfigLayers)
  readErr : String → Option Err
  statErr : String → Option Err

/-- What the functions of `imageOutput.go` change: the disk, and the number
of calls of `rand.Read` made so far. -/
structure World where
  disk : Disk
  draws : Nat

/-- `GenDataKey` of `crypto/file.go`: 32 bytes from `rand.Read`. -/
def GenDataKey (P : Packer) (w : World) : World × Except Err (List Byte) :=
  match P.randRead w.draws 32 with
  | .error err => ({ w with draws := w.draws + 1 }, .error err)
  | .ok key => ({ w with draws := w.draws + 1 }, .ok key)

/-- Modelled from the spec: `utils.Compress`, whose source is missing: it
compresses a file to the sibling path with the suffix `.gz`. -/
def Compress (P : Packer) (disk : Disk) (filename : String) : Disk × Option Err :=
  match P.compressErr filename with
  | some e => (disk, some e)
  | none =>
    match disk filename with
    | none => (disk, some osErrNotExist)
    | some c => (disk.set (filename ++ ".gz") (some (P.gzip c)), none)

/-- Modelled from the spec: `utils.CompressWithDigest`, whose source is
missing: `utils.Compress`, returning the canonical digest of the compressed
file. -/
def CompressWithDigest (P : Packer) (lib : GoLib) (disk : Disk) (filename : String) :
    Disk × Option Digest × Option Err :=
  match P.compressErr filename with
  | some e => (disk, none, some e)
  | none =>
    match disk filename with
    | none => (disk, none, some osErrNotExist)
    | some c =>
      (disk.set (filename ++ ".gz") (some (P.gzip c)),
        some (NewDigest lib digestCanonical (P.gzip c)), none)

/-- What `compressLayer` and `encryptLayer` return. -/
structure LayerFile where
  name : String
  d : Option Digest
  size : Nat
  key : Option (List Byte)
  err : Option Err

/-- `compressLayer` of `images/imageOutput.go`. -/
def compressLayer (P : Packer) (lib : GoLib) (w : World) (filename : String) :
    World × LayerFile :=
  let compFile := filename ++ ".gz"
  match CompressWithDigest P lib w.disk filename with
  | (disk1, _, some err) => ({ w with disk := disk1 }, ⟨"", none, 0, none, some err⟩)
  | (disk1, d, none) =>
    match P.statErr compFile, disk1 compFile with
    | some err, _ =>
      ({ w with disk := disk1 },
        ⟨"", none, 0, none, some (Err.wrap err ("could not stat file: " ++ compFile))⟩)
    | none, none =>
      ({ w with disk := disk1 },
        ⟨"", none, 0, none,
          some (Err.wrap osErrNotExist ("could not stat file: " ++ compFile))⟩)
    | none, some c => ({ w with disk := disk1 }, ⟨compFile, d, c.length, none, none⟩)

/-- `encryptLayer` of `images/imageOutput.go`. -/
def encryptLayer (os : OS) (sio : Sio) (P : Packer) (lib : GoLib) (w : World)
    (filename : String) : World × LayerFile :=
  let compname := filename ++ ".gz"
  let encname := compname ++ ".aes"
  match Compress P w.disk filename with
  | (disk1, some err) => ({ w with disk := disk1 }, ⟨"", none, 0, none, some err⟩)
  | (disk1, none) =>
    match GenDataKey P { w with disk := disk1 } with
    | (w1, .error err) => (w1, ⟨"", none, 0, none, some err⟩)
    | (w1, .ok key) =>
      match EncFile os sio lib w1.disk compname encname key with
      | ⟨disk2, _, _, some err⟩ => ({ w1 with disk := disk2 }, ⟨"", none, 0, none, some err⟩)
      | ⟨disk2, d, size, none⟩ => ({ w1 with disk := disk2 }, ⟨encname, d, size, some key, none⟩)

/-- `ioutil.ReadFile`. -/
def ioutilReadFile (os : OS) (P : Packer) (disk : Disk) (p : String) : Except Err (List Byte) :=
  match osOpen os disk p with
  | .error e => .error e
  | .ok _ =>
    match P.readErr p with
    | some e => .error e
    | none => .ok ((disk p).getD [])

/-- One iteration of the loop of `findLayers`, for the layer file `f`: the
entry built, or the error the function returns with. -/
def layerStep (os : OS) (sio : Sio) (P : Packer) (lib : GoLib) (layers : List String)
    (path : String) (f : String) (w : World) : World × Except Err LayerJSON :=
  let basename := lib.join path f
  match osOpen os w.disk basename with
  | .error err => (w, .error (Err.wrap err ("could not open file: " ++ basename)))
  | .ok _ =>
    match P.readErr basename with
    | some err => (w, .error (Err.wrap err ("could not calculate digest: " ++ basename)))
    | none =>
      let d := NewDigest lib digestCanonical ((w.disk basename).getD [])
      if d.algorithm ++ ":" ++ d.encoded ∈ layers then
        match encryptLayer os sio P lib w basename with
        | (w1, ⟨_, _, _, _, some err⟩) => (w1, .error err)
        | (w1, ⟨filename, d, size, key, none⟩) =>
          (w1, .ok (NewLayerJSON filename d size (key.getD [])))
      else
        match compressLayer P lib w basename with
        | (w1, ⟨_, _, _, _, some err⟩) => (w1, .error err)
        | (w1, ⟨filename, d, size, _, none⟩) => (w1, .ok (NewPlainLayerJSON filename d size))

/-- The loop of `findLayers` over the layer files of the archive manifest. -/
def layersLoop (os : OS) (sio : Sio) (P : Packer) (lib : GoLib) (layers : List String)
    (path : String) : List String → World → World × Except Err (List LayerJSON)
  | [], w => (w, .ok [])
  | f :: fs, w =>
    match layerStep os sio P lib layers path f w with
    | (w1, .error err) => (w1, .error err)
    | (w1, .ok e) =>
      match layersLoop os sio P lib layers path fs w1 with
      | (w2, .error err) => (w2, .error err)
      | (w2, .ok es) => (w2, .ok (e :: es))

/-- What `findLayers` returns, and the world it leaves. -/
structure FindResult where
  world : World
  config : Option LayerJSON
  layers : Option (List LayerJSON)
  err : Option Err

/-- `findLayers` of `images/imageOutput.go`; `layers` holds the digests to
encrypt, from which the code builds the set `layerSet`. -/
def findLayers (os : OS) (sio : Sio) (P : Packer) (lib : GoLib) (w : World)
    (_repo _tag path : String) (layers : List String) : FindResult :=
  let manifestfile := lib.join path "manifest.json"
  match ioutilReadFile os P w.disk manifestfile with
  | .error err => ⟨w, none, none, some (Err.wrap err ("could not open file: " ++ manifestfile))⟩
  | .ok dat =>
    match P.unmarshal dat with
    | .error err => ⟨w, none, none, some (Err.wrap err "error unmarshalling")⟩
    | .ok [] => ⟨w, none, none, some (Err.leaf "no image data was found")⟩
    | .ok (image0 :: _) =>
      let configfile := lib.join path image0.Config
      match encryptLayer os sio P lib w configfile with
      | (w1, ⟨_, _, _, _, some err⟩) => ⟨w1, none, none, some err⟩
      | (w1, ⟨filename, d, size, key, none⟩) =>
        let config := NewConfigJSON filename d size (key.getD [])
        match layersLoop os sio P lib layers path image0.Layers w1 with
        | (w2, .error err) => ⟨w2, none, none, some err⟩
        | (w2, .ok layerJSON) => ⟨w2, some config, some layerJSON, none⟩

/-- The worlds the loop of `findLayers` meets: for each layer file in turn,
the world as it is when the turn of that file comes. -/
def layerWorlds (os : OS) (sio : Sio) (P : Packer) (lib : GoLib) (layers : List String)
    (path : String) : List String → World → List World
  | [], _ => []
  | f :: fs, w =>
    w :: layerWorlds os sio P lib layers path fs (layerStep os sio P lib layers path f w).1

/-- An entry of `findLayers` as the specification has it for the layer file
`f`, read in the world `w`: when the canonical digest of the file is among
the digests to encrypt, an entry with crypto metadata holding a key that
`rand.Read` has just returned, stored at `f.gz.aes`; otherwise a plain entry
without crypto metadata, stored at `f.gz`. -/
def entryFor (P : Packer) (lib : GoLib) (layers : List String) (path : String)
    (f : String) (w : World) (e : LayerJSON) : Prop :=
  ∃ content, w.disk (lib.join path f) = some content
    ∧ ((NewDigest lib digestCanonical content).algorithm ++ ":"
          ++ (NewDigest lib digestCanonical content).encoded ∈ layers →
        e.Filename = lib.join path f ++ ".gz" ++ ".aes"
        ∧ ∃ key, P.randRead w.draws 32 = .ok key ∧ e.Crypto = some ⟨key⟩)
    ∧ ((NewDigest lib digestCanonical content).algorithm ++ ":"
          ++ (NewDigest lib digestCanonical content).encoded ∉ layers →
        e.Filename = lib.join path f ++ ".gz" ∧ e.Crypto = none)

/-- A stand-in for the libraries of `findLayers`: gzip puts two bytes in front
of the content, `rand.Read` returns the number of the call in every byte, and
every archive manifest parses to one image with the config `config.json` and
the layer files `a/layer.tar` and `b/layer.tar`. -/
def toyPacker : Packer where
  gzip := fun c => 31 :: 139 :: c
  compressErr := fun _ => none
  randRead := fun i n => .ok (List.replicate n i.toUInt8)
  unmarshal := fun _ => .ok [⟨"config.json", ["a/layer.tar", "b/layer.tar"]⟩]
  readErr := fun _ => none
  statErr := fun _ => none

/-- An extracted image archive in the directory `stage`. -/
def diskStage : Disk := fun p =>
  if p = "stage/manifest.json" then some [91, 93]
  else if p = "stage/config.json" then some [123, 125]
  else if p = "stage/a/layer.tar" then some [1, 2, 3]
  else if p = "stage/b/layer.tar" then some [4, 5]
  else none

/-! # Theorems -/

/-! ## Layer selection -/

/-- The loop of `numLayers` returns at the first trivial marker entry, with
the number of non-trivial entries before it added to the count. -/
theorem numLayersLoop_marker (pre : List HistoryResponseItem) (mk : HistoryResponseItem)
    (post : List HistoryResponseItem) (n : Nat)
    (hpre : ∀ h ∈ pre, nonTrivial h = true ∨ carriesMarker h = false)
    (hmk : nonTrivial mk = false ∧ carriesMarker mk = true) :
    numLayersLoop (pre ++ mk :: post) n = some (n + (pre.filter nonTrivial).length) := by
  induction pre generalizing n with
  | nil =>
    have h1 := hmk.1
    have h2 := hmk.2
    simp only [nonTrivial, carriesMarker, Bool.or_eq_false_iff, decide_eq_false_iff_not, ne_eq,
      not_not, Bool.not_eq_false'] at h1 h2
    simp [numLayersLoop, h1.1, h1.2, h2]
  | cons h t ih =>
    have ht : ∀ x ∈ t, nonTrivial x = true ∨ carriesMarker x = false :=
      fun x hx => hpre x (List.mem_cons_of_mem _ hx)
    have hh := hpre h (List.mem_cons_self _ _)
    by_cases hn : nonTrivial h = true
    · have hn2 := hn
      simp only [nonTrivial, Bool.or_eq_true, decide_eq_true_eq, Bool.not_eq_true'] at hn2
      have : h.Size ≠ 0 ∨ stringsContains h.CreatedBy "#(nop)" = false := hn2
      simp only [List.cons_append, numLayersLoop, if_pos this, List.filter_cons, hn, if_true,
        List.length_cons]
      have := ih (n + 1) ht
      simp only [List.append_eq] at this ⊢
      rw [this]; congr 1; omega
    · have hm : carriesMarker h = false := by
        rcases hh with h1 | h1
        · exact absurd h1 hn
        · exact h1
      have hn2 : nonTrivial h = false := by simpa using hn
      have hn3 := hn2
      simp only [nonTrivial, Bool.or_eq_false_iff, decide_eq_false_iff_not, ne_eq,
        not_not, Bool.not_eq_false'] at hn3
      have hneg : ¬ (h.Size ≠ 0 ∨ stringsContains h.CreatedBy "#(nop)" = false) := by
        simp [hn3.1, hn3.2]
      have hm2 : stringsContains h.CreatedBy labelString = false := hm
      simp only [List.cons_append, numLayersLoop, if_neg hneg, hm2, List.filter_cons, hn2]
      simpa using ih n ht

/-- Without an entry carrying the marker label the loop of `numLayers` runs
to the end of the history. -/
theorem numLayersLoop_none (hist : List HistoryResponseItem) (n : Nat)
    (h : ∀ x ∈ hist, carriesMarker x = false) : numLayersLoop hist n = none := by
  induction hist generalizing n with
  | nil => rfl
  | cons a t ih =>
    have ha : stringsContains a.CreatedBy labelString = false := h a (List.mem_cons_self _ _)
    have ht : ∀ x ∈ t, carriesMarker x = false := fun x hx => h x (List.mem_cons_of_mem _ hx)
    simp only [numLayersLoop, ha]
    split
    · exact ih _ ht
    · simpa using ih n ht

/-- C6 (amended): when the history holds a marker entry that is itself
trivial (size zero, created-by text containing "#(nop)" and the label), `mk`
is the first such entry, `m` is the number of non-trivial entries before it,
and the layer list `L` of the image has at least `m` elements, then
`getImgTarLayers` returns as the layers to encrypt a suffix of `L` of length
`m`: the last `m` elements of `L` in their order. -/
theorem getImgTarLayers_selects_suffix (cli : DockerClient) (repo tag : String)
    (inspt : ImageInspect) (img : List Byte)
    (pre : List HistoryResponseItem) (mk : HistoryResponseItem) (post : List HistoryResponseItem)
    (hI : cli.ImageInspectWithRaw (repo ++ ":" ++ tag) = .ok inspt)
    (hS : cli.ImageSave [inspt.ID] = .ok img)
    (hH : cli.ImageHistory (repo ++ ":" ++ tag) = .ok (pre ++ mk :: post))
    (hpre : ∀ h ∈ pre, nonTrivial h = true ∨ carriesMarker h = false)
    (hmk : nonTrivial mk = false ∧ carriesMarker mk = true)
    (hm : (pre.filter nonTrivial).length ≤ inspt.Layers.length) :
    ∃ sel, getImgTarLayers (.ok cli) repo tag = Exec.returned (some sel, some img, none)
      ∧ sel.length = (pre.filter nonTrivial).length
      ∧ List.IsSuffix sel inspt.Layers := by
  refine ⟨inspt.Layers.drop (inspt.Layers.length - (pre.filter nonTrivial).length), ?_, ?_, ?_⟩
  · have hloop := numLayersLoop_marker pre mk post 0 hpre hmk
    have hnum : numLayers (pre ++ mk :: post)
        = Exec.returned ((pre.filter nonTrivial).length, none) := by
      simp [numLayers, hloop]
    have hslice : sliceFrom inspt.Layers
        ((inspt.Layers.length : Int) - ((pre.filter nonTrivial).length : Int))
        = Exec.returned
            (inspt.Layers.drop (inspt.Layers.length - (pre.filter nonTrivial).length)) := by
      have h1 : ¬ (((inspt.Layers.length : Int) - ((pre.filter nonTrivial).length : Int)) < 0
          ∨ (inspt.Layers.length : Int)
            < (inspt.Layers.length : Int) - ((pre.filter nonTrivial).length : Int)) := by
        omega
      have h2 : ((inspt.Layers.length : Int) - ((pre.filter nonTrivial).length : Int)).toNat
          = inspt.Layers.length - (pre.filter nonTrivial).length := by omega
      simp only [sliceFrom, if_neg h1, h2]
    simp only [getImgTarLayers, hI, hS, hH, hnum, hslice]
  · simp only [List.length_drop]; omega
  · exact List.drop_suffix _ _

/-- C6 (amended) at a history of four entries, the third of which is the
first trivial marker entry. -/
theorem getImgTarLayers_selects_suffix_witness :
    ∃ sel, getImgTarLayers (.ok (fixedClient ["sha256:a", "sha256:b", "sha256:c"]
        [runEntry, plainMarker, classicMarker, runEntry])) "repo" "tag"
        = Exec.returned (some sel, some [], none)
      ∧ sel.length = ([runEntry, plainMarker].filter nonTrivial).length
      ∧ List.IsSuffix sel ["sha256:a", "sha256:b", "sha256:c"] :=
  getImgTarLayers_selects_suffix
    (fixedClient ["sha256:a", "sha256:b", "sha256:c"]
      [runEntry, plainMarker, classicMarker, runEntry]) "repo" "tag"
    ⟨"sha256:img", ["sha256:a", "sha256:b", "sha256:c"]⟩ []
    [runEntry, plainMarker] classicMarker [runEntry] rfl rfl rfl
    (by decide) (by decide) (by decide)

/-- C6 as stated fails. A history whose only entry carries the marker label
without "#(nop)" has the marker at index 0 and no entry before it, yet
`getImgTarLayers` ends the process and selects nothing. And with one
non-trivial entry before a marker and an empty layer list the slice
expression panics. -/
theorem getImgTarLayers_marker_not_found :
    (carriesMarker plainMarker = true
      ∧ getImgTarLayers (.ok (fixedClient ["sha256:a"] [plainMarker])) "repo" "tag"
          = Exec.fatal "this image was not built with the correct LABEL")
    ∧ (carriesMarker classicMarker = true
      ∧ ([runEntry].filter nonTrivial).length = 1
      ∧ getImgTarLayers (.ok (fixedClient [] [runEntry, classicMarker])) "repo" "tag"
          = Exec.panicked "slice bounds out of range") := by
  refine ⟨⟨by decide, by rfl⟩, by decide, by decide, by rfl⟩

/-- The part of C7 about `numLayers`: without an entry carrying the marker
label it ends the process and returns no count. -/
theorem numLayers_no_marker_fatal (hist : List HistoryResponseItem)
    (h : ∀ x ∈ hist, carriesMarker x = false) :
    numLayers hist = Exec.fatal "this image was not built with the correct LABEL" := by
  simp [numLayers, numLayersLoop_none hist 0 h]

/-- Without an entry carrying the marker label the first loop of
`obtainImageData` ends at `len(hist)`. -/
theorem findLabel_no_marker (hist : List HistoryResponseItem) (i : Nat)
    (h : ∀ x ∈ hist, carriesMarker x = false) : findLabel hist i = i + hist.length := by
  induction hist generalizing i with
  | nil => rfl
  | cons a t ih =>
    have ha : stringsContains a.CreatedBy labelString = false := h a (List.mem_cons_self _ _)
    have ht : ∀ x ∈ t, carriesMarker x = false := fun x hx => h x (List.mem_cons_of_mem _ hx)
    simp only [findLabel, ha, List.length_cons]
    rw [ih (i + 1) ht]; simp; omega

/-- The part of C7 about `obtainImageData` that holds: for a non-empty
history without an entry carrying the marker label it returns the error and
no layer list. -/
theorem obtainImageData_no_marker_error (cli : DockerClient) (imageID : String)
    (h0 : HistoryResponseItem) (rest : List HistoryResponseItem)
    (hH : cli.ImageHistory imageID = .ok (h0 :: rest))
    (h : ∀ x ∈ h0 :: rest, carriesMarker x = false) :
    obtainImageData (.ok cli) imageID
      = Exec.returned (none, none, some (Err.leaf ("no " ++ labelString ++ " in Dockerfile"))) := by
  have hf := findLabel_no_marker (h0 :: rest) 0 h
  have hge : ((findLabel (h0 :: rest) 0 : Nat) : Int) ≥ (((h0 :: rest).length : Nat) : Int) - 1 := by
    rw [hf]; omega
  simp only [obtainImageData, hH, if_pos hge]

/-- C7 at the failing input: for the empty history, which holds no marker
entry, `obtainImageData` panics on `hist[0]` before it reaches the check that
returns the error. -/
theorem obtainImageData_empty_history_panics :
    (∀ x ∈ ([] : List HistoryResponseItem), carriesMarker x = false)
    ∧ obtainImageData (.ok (fixedClient ["sha256:a"] [])) "img"
        = Exec.panicked "index out of range [0] with length 0" :=
  ⟨by simp, rfl⟩

/-! ## Files -/

theorem Disk.set_same (d : Disk) (p : String) (c : Option (List Byte)) : (d.set p c) p = c := by
  simp [Disk.set]

theorem Disk.set_other (d : Disk) (p q : String) (c : Option (List Byte)) (h : q ≠ p) :
    (d.set p c) q = d q := by
  simp [Disk.set, h]

theorem Disk.set_set (d : Disk) (p : String) (a b : Option (List Byte)) :
    (d.set p a).set p b = d.set p b := by
  funext q
  by_cases h : q = p <;> simp [Disk.set, h]

theorem Disk.set_self (d : Disk) (p : String) (c : Option (List Byte)) (h : d p = c) :
    d.set p c = d := by
  funext q
  by_cases hq : q = p
  · subst hq; simp [Disk.set, h]
  · simp [Disk.set, hq]

/-- Writing chunks to an open handle whose writes do not fail appends their
concatenation to the file. -/
theorem writeAll_file (os : OS) (fh : Handle) (hopen : fh.closed = false)
    (hw : ∀ n, os.writeErr fh.path n = none) (chunks : List (List Byte)) :
    ∀ (d : Disk) (c0 : List Byte) (n : Nat), d fh.path = some c0 →
      writeAll (fun d chunk => fileWrite os d fh chunk) d chunks n
        = (d.set fh.path (some (c0 ++ chunks.flatten)), n + chunks.flatten.length, none) := by
  induction chunks with
  | nil =>
    intro d c0 n hd
    simp [writeAll, Disk.set_self d fh.path (some c0) hd]
  | cons c cs ih =>
    intro d c0 n hd
    have hstep : fileWrite os d fh c = (d.set fh.path (some (c0 ++ c)), none) := by
      simp [fileWrite, hopen, hd, hw]
    simp only [writeAll, hstep]
    rw [ih (d.set fh.path (some (c0 ++ c))) (c0 ++ c) (n + c.length) (Disk.set_same _ _ _)]
    simp [Disk.set_set, List.append_assoc, Nat.add_assoc]

/-- The same for the writer that feeds the hash as well. -/
theorem writeAll_hashAndFile (os : OS) (fh : Handle) (hopen : fh.closed = false)
    (hw : ∀ n, os.writeErr fh.path n = none) (chunks : List (List Byte)) :
    ∀ (fed : List Byte) (d : Disk) (c0 : List Byte) (n : Nat), d fh.path = some c0 →
      writeAll (hashAndFileWrite os fh) (fed, d) chunks n
        = ((fed ++ chunks.flatten, d.set fh.path (some (c0 ++ chunks.flatten))),
            n + chunks.flatten.length, none) := by
  induction chunks with
  | nil =>
    intro fed d c0 n hd
    simp [writeAll, Disk.set_self d fh.path (some c0) hd]
  | cons c cs ih =>
    intro fed d c0 n hd
    have hstep : hashAndFileWrite os fh (fed, d) c
        = ((fed ++ c, d.set fh.path (some (c0 ++ c))), none) := by
      simp [hashAndFileWrite, fileWrite, hopen, hd, hw]
    simp only [writeAll, hstep]
    rw [ih (fed ++ c) (d.set fh.path (some (c0 ++ c))) (c0 ++ c) (n + c.length)
      (Disk.set_same _ _ _)]
    simp [Disk.set_set, List.append_assoc, Nat.add_assoc]

/-- Whenever all writes through the hash-and-file writer succeed, the hash
has been given exactly the bytes appended to the file. -/
theorem writeAll_hashAndFile_success (os : OS) (fh : Handle) (chunks : List (List Byte)) :
    ∀ (fed : List Byte) (d : Disk) (c0 : List Byte) (n : Nat) (fed1 : List Byte) (d1 : Disk)
      (n1 : Nat), d fh.path = some c0 →
      writeAll (hashAndFileWrite os fh) (fed, d) chunks n = ((fed1, d1), n1, none) →
      ∃ w, fed1 = fed ++ w ∧ d1 fh.path = some (c0 ++ w) ∧ n1 = n + w.length := by
  induction chunks with
  | nil =>
    intro fed d c0 n fed1 d1 n1 hd h
    simp only [writeAll, Prod.mk.injEq, and_true] at h
    refine ⟨[], ?_, ?_, ?_⟩
    · simp [← h.1.1]
    · simp [← h.1.2, hd]
    · simp [← h.2]
  | cons c cs ih =>
    intro fed d c0 n fed1 d1 n1 hd h
    simp only [writeAll] at h
    cases hfw : fileWrite os d fh c with
    | mk d2 e =>
      have hstep : hashAndFileWrite os fh (fed, d) c = ((fed ++ c, d2), e) := by
        simp [hashAndFileWrite, hfw]
      rw [hstep] at h
      cases e with
      | some e => simp at h
      | none =>
        simp only at h
        have hd2 : d2 fh.path = some (c0 ++ c) := by
          simp only [fileWrite, hd] at hfw
          by_cases hc : fh.closed = true
          · simp [hc] at hfw
          · simp only [hc, Bool.false_eq_true, if_false] at hfw
            cases hwe : os.writeErr fh.path c0.length with
            | some e => simp [hwe] at hfw
            | none =>
              simp only [hwe, Prod.mk.injEq, and_true] at hfw
              rw [← hfw]; exact Disk.set_same _ _ _
        obtain ⟨w, hw1, hw2, hw3⟩ := ih (fed ++ c) d2 (c0 ++ c) (n + c.length) fed1 d1 n1 hd2 h
        exact ⟨c ++ w, by simp [hw1], by simp [hw2], by simp [hw3]; omega⟩

theorem CheckedClose_some_ne_none (c : Option Err) (e : Err) : CheckedClose c (some e) ≠ none := by
  cases c <;> simp [CheckedClose]

theorem fileWrite_exists (os : OS) (d : Disk) (fh : Handle) (chunk c0 : List Byte)
    (hd : d fh.path = some c0) : ∃ c1, (fileWrite os d fh chunk).1 fh.path = some c1 := by
  unfold fileWrite
  by_cases hc : fh.closed = true
  · simp [hc, hd]
  · simp only [hc, Bool.false_eq_true, if_false, hd]
    cases hwe : os.writeErr fh.path c0.length with
    | some e => simp [hd]
    | none => simp [Disk.set_same]

theorem writeAll_file_exists (os : OS) (fh : Handle) (chunks : List (List Byte)) :
    ∀ (d : Disk) (c0 : List Byte) (n : Nat), d fh.path = some c0 →
      ∃ c1, (writeAll (fun d chunk => fileWrite os d fh chunk) d chunks n).1 fh.path
        = some c1 := by
  induction chunks with
  | nil => intro d c0 n hd; exact ⟨c0, by simp [writeAll, hd]⟩
  | cons c cs ih =>
    intro d c0 n hd
    obtain ⟨c1, hc1⟩ := fileWrite_exists os d fh c c0 hd
    simp only [writeAll]
    cases hfw : fileWrite os d fh c with
    | mk d2 e =>
      rw [hfw] at hc1
      cases e with
      | some e => exact ⟨c1, hc1⟩
      | none => exact ih d2 c1 (n + c.length) hc1

theorem writeAll_hashAndFile_exists (os : OS) (fh : Handle) (chunks : List (List Byte)) :
    ∀ (fed : List Byte) (d : Disk) (c0 : List Byte) (n : Nat), d fh.path = some c0 →
      ∃ c1, (writeAll (hashAndFileWrite os fh) (fed, d) chunks n).1.2 fh.path = some c1 := by
  induction chunks with
  | nil => intro fed d c0 n hd; exact ⟨c0, by simp [writeAll, hd]⟩
  | cons c cs ih =>
    intro fed d c0 n hd
    obtain ⟨c1, hc1⟩ := fileWrite_exists os d fh c c0 hd
    simp only [writeAll]
    cases hfw : fileWrite os d fh c with
    | mk d2 e =>
      rw [hfw] at hc1
      have hstep : hashAndFileWrite os fh (fed, d) c = ((fed ++ c, d2), e) := by
        simp [hashAndFileWrite, hfw]
      rw [hstep]
      cases e with
      | some e => exact ⟨c1, hc1⟩
      | none => exact ih (fed ++ c) d2 c1 (n + c.length) hc1

theorem sioCopy_fst (σ : Type) (run : Run) (write : σ → List Byte → σ × Option Err) (s : σ) :
    (sioCopy run write s).1 = (writeAll write s run.chunks 0).1 := by
  unfold sioCopy
  rcases hw : writeAll write s run.chunks 0 with ⟨s1, n, e⟩
  cases e <;> rfl

/-! ## `EncFile` and `DecFile` -/

/-- C4: whenever `EncFile` returns a nil error, the output file exists and
the digest returned is the canonical digest of exactly its content, the
bytes written to it; the size returned is their number. -/
theorem EncFile_digest_of_output (os : OS) (sio : Sio) (lib : GoLib) (disk : Disk)
    (infile outfile : String) (key : List Byte)
    (h : (EncFile os sio lib disk infile outfile key).err = none) :
    ∃ c, (EncFile os sio lib disk infile outfile key).disk outfile = some c
      ∧ (EncFile os sio lib disk infile outfile key).d = some (NewDigest lib digestCanonical c)
      ∧ (EncFile os sio lib disk infile outfile key).size = c.length := by
  unfold EncFile at h ⊢
  cases hopen : osOpen os disk infile with
  | error e => simp [hopen] at h
  | ok inFH =>
    simp only [hopen] at h ⊢
    cases hce : os.createErr outfile with
    | some e =>
      simp only [osCreate, hce] at h
      exact absurd h (CheckedClose_some_ne_none _ _)
    | none =>
      simp only [osCreate, hce] at h ⊢
      rcases hstep : encryptStep os sio (disk.set outfile (some [])) inFH ⟨outfile, false⟩ key
        with ⟨⟨fed, disk2⟩, size, err⟩
      rw [hstep] at h
      cases err with
      | some e =>
        simp only at h
        exact absurd h (CheckedClose_some_ne_none _ _)
      | none =>
        simp only
        simp only [encryptStep, sioCopy] at hstep
        rcases hwa : writeAll (hashAndFileWrite os ⟨outfile, false⟩)
            ([], disk.set outfile (some []))
            (sio.Encrypt ⟨sioVersion20, sioVersion20, [sioAES_256_GCM], key⟩
              (((disk.set outfile (some [])) inFH.path).getD [])).chunks 0
          with ⟨⟨fed1, d1⟩, n1, e1⟩
        rw [hwa] at hstep
        cases e1 with
        | some e => simp at hstep
        | none =>
          simp only [Prod.mk.injEq] at hstep
          obtain ⟨⟨hf, hd⟩, hn, _⟩ := hstep
          subst hf; subst hd; subst hn
          obtain ⟨w, hw1, hw2, hw3⟩ := writeAll_hashAndFile_success os ⟨outfile, false⟩ _
            [] (disk.set outfile (some [])) [] 0 fed1 d1 n1 (Disk.set_same _ _ _) hwa
          simp only [List.nil_append] at hw1 hw2
          exact ⟨w, hw2, by rw [hw1], by omega⟩

/-- C4 at a three byte file, with the stand-in for `sio`. -/
theorem EncFile_digest_of_output_witness :
    (EncFile OS.healthy toySio toyLib diskIn "in" "out" key32).err = none
    ∧ ∃ c, (EncFile OS.healthy toySio toyLib diskIn "in" "out" key32).disk "out" = some c
      ∧ (EncFile OS.healthy toySio toyLib diskIn "in" "out" key32).d
          = some (NewDigest toyLib digestCanonical c)
      ∧ (EncFile OS.healthy toySio toyLib diskIn "in" "out" key32).size = c.length :=
  ⟨rfl, EncFile_digest_of_output OS.healthy toySio toyLib diskIn "in" "out" key32 rfl⟩

/-- C5: when the source was opened and the destination created, and the
call of the streaming cipher returns the error `e`, then `EncFile` returns no
digest and size 0, and `EncFile` and `DecFile` return a non-nil error: the
list of `e`, the result of closing the destination and the (wrapped) result
of removing it, in this order, passed through the two deferred
`CheckedClose` calls, of which the one for the destination meets a handle
that is already closed. When the removal did not fail the destination does
not exist afterwards. -/
theorem cipher_error_cleanup (os : OS) (sio : Sio) (lib : GoLib) (disk : Disk)
    (infile outfile : String) (key src : List Byte) (e : Err)
    (hopen : os.openErr infile = none) (hin : disk infile = some src)
    (hcreate : os.createErr outfile = none) :
    ((encryptStep os sio (disk.set outfile (some [])) ⟨infile, false⟩ ⟨outfile, false⟩ key).2.2
        = some e →
      (EncFile os sio lib disk infile outfile key).d = none
      ∧ (EncFile os sio lib disk infile outfile key).size = 0
      ∧ (EncFile os sio lib disk infile outfile key).err
          = CheckedClose (os.closeErr infile) (CheckedClose (some osErrClosed)
              (some (Err.errors [some e, os.closeErr outfile,
                errorsWrapf (os.removeErr outfile)
                  ("warning, unauthenticated file could not be removed: " ++ outfile)])))
      ∧ (EncFile os sio lib disk infile outfile key).err ≠ none
      ∧ (os.removeErr outfile = none →
          (EncFile os sio lib disk infile outfile key).disk outfile = none))
    ∧ ((decryptStep os sio (disk.set outfile (some [])) ⟨infile, false⟩ ⟨outfile, false⟩ key).2.2
        = some e →
      (DecFile os sio disk infile outfile key).2
          = CheckedClose (os.closeErr infile) (CheckedClose (some osErrClosed)
              (some (Err.errors [some e, os.closeErr outfile,
                errorsWrapf (os.removeErr outfile)
                  ("warning, unauthenticated file could not be removed: " ++ outfile)])))
      ∧ (DecFile os sio disk infile outfile key).2 ≠ none
      ∧ (os.removeErr outfile = none →
          (DecFile os sio disk infile outfile key).1 outfile = none)) := by
  have hOpen : osOpen os disk infile = .ok ⟨infile, false⟩ := by
    simp [osOpen, hopen, hin]
  have hCreate : osCreate os disk outfile
      = (disk.set outfile (some []), .ok ⟨outfile, false⟩) := by
    simp [osCreate, hcreate]
  constructor
  · intro hstep
    rcases hs : encryptStep os sio (disk.set outfile (some [])) ⟨infile, false⟩
        ⟨outfile, false⟩ key with ⟨⟨fed, disk2⟩, size, err⟩
    rw [hs] at hstep
    simp only at hstep
    subst hstep
    have hex : ∃ c1, disk2 outfile = some c1 := by
      have h1 := writeAll_hashAndFile_exists os ⟨outfile, false⟩
        (sio.Encrypt ⟨sioVersion20, sioVersion20, [sioAES_256_GCM], key⟩
          (((disk.set outfile (some [])) infile).getD [])).chunks
        [] (disk.set outfile (some [])) [] 0 (Disk.set_same _ _ _)
      have h2 := congrArg (fun r => r.1.2) hs
      simp only [encryptStep, sioCopy_fst] at h2
      rw [h2] at h1
      exact h1
    obtain ⟨c1, hc1⟩ := hex
    have hres : EncFile os sio lib disk infile outfile key
        = ⟨(osRemove os disk2 outfile).1, none, 0,
            CheckedClose (os.closeErr infile) (CheckedClose (some osErrClosed)
              (some (Err.errors [some e, os.closeErr outfile,
                errorsWrapf (osRemove os disk2 outfile).2
                  ("warning, unauthenticated file could not be removed: " ++ outfile)])))⟩ := by
      simp [EncFile, hOpen, hCreate, hs, fileClose]
    have hrem : (osRemove os disk2 outfile).2 = os.removeErr outfile := by
      unfold osRemove
      cases hr : os.removeErr outfile <;> simp [hc1]
    rw [hres, hrem]
    refine ⟨rfl, rfl, rfl, CheckedClose_some_ne_none _ _, ?_⟩
    intro hr
    simp [osRemove, hr, hc1, Disk.set_same]
  · intro hstep
    rcases hs : decryptStep os sio (disk.set outfile (some [])) ⟨infile, false⟩
        ⟨outfile, false⟩ key with ⟨disk2, size, err⟩
    rw [hs] at hstep
    simp only at hstep
    subst hstep
    have hex : ∃ c1, disk2 outfile = some c1 := by
      have h1 := writeAll_file_exists os ⟨outfile, false⟩
        (sio.Decrypt ⟨sioVersion20, sioVersion20, [sioAES_256_GCM], key⟩
          (((disk.set outfile (some [])) infile).getD [])).chunks
        (disk.set outfile (some [])) [] 0 (Disk.set_same _ _ _)
      have h2 := congrArg (fun r => r.1) hs
      simp only [decryptStep, sioCopy_fst] at h2
      rw [h2] at h1
      exact h1
    obtain ⟨c1, hc1⟩ := hex
    have hres : DecFile os sio disk infile outfile key
        = ((osRemove os disk2 outfile).1,
            CheckedClose (os.closeErr infile) (CheckedClose (some osErrClosed)
              (some (Err.errors [some e, os.closeErr outfile,
                errorsWrapf (osRemove os disk2 outfile).2
                  ("warning, unauthenticated file could not be removed: " ++ outfile)])))) := by
      simp [DecFile, hOpen, hCreate, hs, fileClose]
    have hrem : (osRemove os disk2 outfile).2 = os.removeErr outfile := by
      unfold osRemove
      cases hr : os.removeErr outfile <;> simp [hc1]
    rw [hres, hrem]
    refine ⟨rfl, CheckedClose_some_ne_none _ _, ?_⟩
    intro hr
    simp [osRemove, hr, hc1, Disk.set_same]

/-- C5 at a rejected key for `EncFile` and at a changed first byte for
`DecFile`, with the stand-in for `sio`. -/
theorem cipher_error_cleanup_witness :
    ((encryptStep OS.healthy toySio (diskIn.set "out" (some [])) ⟨"in", false⟩ ⟨"out", false⟩
          [1]).2.2 = some (Err.leaf "sio: invalid key size")
      ∧ (EncFile OS.healthy toySio toyLib diskIn "in" "out" [1]).d = none
      ∧ (EncFile OS.healthy toySio toyLib diskIn "in" "out" [1]).size = 0
      ∧ (EncFile OS.healthy toySio toyLib diskIn "in" "out" [1]).disk "out" = none)
    ∧ ((decryptStep OS.healthy toySio (diskTampered.set "out" (some [])) ⟨"in", false⟩
          ⟨"out", false⟩ key32).2.2 = some (Err.leaf "sio: data is not authentic")
      ∧ (DecFile OS.healthy toySio diskTampered "in" "out" key32).2 ≠ none
      ∧ (DecFile OS.healthy toySio diskTampered "in" "out" key32).1 "out" = none) :=
  ⟨⟨rfl,
    ((cipher_error_cleanup OS.healthy toySio toyLib diskIn "in" "out" [1] [1, 2, 3]
      (Err.leaf "sio: invalid key size") rfl rfl rfl).1 rfl).1,
    ((cipher_error_cleanup OS.healthy toySio toyLib diskIn "in" "out" [1] [1, 2, 3]
      (Err.leaf "sio: invalid key size") rfl rfl rfl).1 rfl).2.1,
    ((cipher_error_cleanup OS.healthy toySio toyLib diskIn "in" "out" [1] [1, 2, 3]
      (Err.leaf "sio: invalid key size") rfl rfl rfl).1 rfl).2.2.2.2 rfl⟩,
   ⟨rfl,
    ((cipher_error_cleanup OS.healthy toySio toyLib diskTampered "in" "out" key32 [0x21, 1, 2, 3]
      (Err.leaf "sio: data is not authentic") rfl rfl rfl).2 rfl).2.1,
    ((cipher_error_cleanup OS.healthy toySio toyLib diskTampered "in" "out" key32 [0x21, 1, 2, 3]
      (Err.leaf "sio: data is not authentic") rfl rfl rfl).2 rfl).2.2 rfl⟩⟩

theorem sioCopy_of_writeAll {σ : Type} {run : Run} {write : σ → List Byte → σ × Option Err}
    {s s1 : σ} {n : Nat} (h : writeAll write s run.chunks 0 = (s1, n, none)) :
    sioCopy run write s = (s1, n, run.err) := by
  simp [sioCopy, h]

/-- The configuration `EncFile` passes to `sio.Encrypt` is `dare20 key`. -/
theorem encryptStep_config (os : OS) (sio : Sio) (disk1 : Disk) (inFH outFH : Handle)
    (key : List Byte) :
    encryptStep os sio disk1 inFH outFH key
      = sioCopy (sio.Encrypt (dare20 key) ((disk1 inFH.path).getD []))
          (hashAndFileWrite os outFH) ([], disk1) := rfl

/-- The configuration `DecFile` passes to `sio.Decrypt` is `dare20 datakey`,
the same as in `EncFile`. -/
theorem decryptStep_config (os : OS) (sio : Sio) (disk1 : Disk) (inFH outFH : Handle)
    (datakey : List Byte) :
    decryptStep os sio disk1 inFH outFH datakey
      = sioCopy (sio.Decrypt (dare20 datakey) ((disk1 inFH.path).getD []))
          (fun d chunk => fileWrite os d outFH chunk) disk1 := rfl

/-- C3 (amended): on an operating system on which no call fails, for every
content `p` of `infile` that is not empty and every 32 byte key, `EncFile
infile encfile` succeeds, `DecFile encfile outfile` on the disk it leaves
succeeds, and `outfile` then holds exactly `p`. The paths of source and
destination differ in each call. The library `sio` is assumed to decrypt what
it encrypted from a source that is not empty, at the one configuration
`dare20 key` (version 2.0 only, AES-256-GCM only): both functions pass that
configuration, or the assumption would not apply. -/
theorem EncFile_DecFile_roundtrip (sio : Sio) (lib : GoLib) (disk : Disk)
    (infile encfile outfile : String) (key p : List Byte)
    (hsio : ∀ k : List Byte, k.length = 32 → ∀ src : List Byte, src ≠ [] →
      (sio.Encrypt (dare20 k) src).err = none
      ∧ (sio.Decrypt (dare20 k) (sio.Encrypt (dare20 k) src).chunks.flatten).err = none
      ∧ (sio.Decrypt (dare20 k) (sio.Encrypt (dare20 k) src).chunks.flatten).chunks.flatten
          = src)
    (hkey : key.length = 32)
    (hp : p ≠ [])
    (hin : disk infile = some p)
    (hne1 : infile ≠ encfile) (hne2 : encfile ≠ outfile) :
    (EncFile OS.healthy sio lib disk infile encfile key).err = none
    ∧ (DecFile OS.healthy sio (EncFile OS.healthy sio lib disk infile encfile key).disk
        encfile outfile key).2 = none
    ∧ (DecFile OS.healthy sio (EncFile OS.healthy sio lib disk infile encfile key).disk
        encfile outfile key).1 outfile = some p := by
  obtain ⟨he1, he2, he3⟩ := hsio key hkey p hp
  have hw : ∀ (q : String) (n : Nat), OS.healthy.writeErr q n = none := fun _ _ => rfl
  -- the encryption
  have hsrc : ((disk.set encfile (some [])) infile).getD [] = p := by
    rw [Disk.set_other _ _ _ _ hne1, hin]; rfl
  have hrunE := writeAll_hashAndFile OS.healthy ⟨encfile, false⟩ rfl (hw encfile)
    (sio.Encrypt (dare20 key) p).chunks [] (disk.set encfile (some [])) [] 0
    (Disk.set_same _ _ _)
  have hstepE : encryptStep OS.healthy sio (disk.set encfile (some [])) ⟨infile, false⟩
      ⟨encfile, false⟩ key
      = (((sio.Encrypt (dare20 key) p).chunks.flatten,
          disk.set encfile (some (sio.Encrypt (dare20 key) p).chunks.flatten)),
          (sio.Encrypt (dare20 key) p).chunks.flatten.length, none) := by
    show sioCopy (sio.Encrypt (dare20 key) (((disk.set encfile (some [])) infile).getD []))
      (hashAndFileWrite OS.healthy ⟨encfile, false⟩) ([], disk.set encfile (some [])) = _
    rw [hsrc, sioCopy_of_writeAll hrunE, he1]
    simp [Disk.set_set]
  have hEnc : EncFile OS.healthy sio lib disk infile encfile key
      = ⟨disk.set encfile (some (sio.Encrypt (dare20 key) p).chunks.flatten),
          some (NewDigest lib digestCanonical (sio.Encrypt (dare20 key) p).chunks.flatten),
          (sio.Encrypt (dare20 key) p).chunks.flatten.length, none⟩ := by
    have hOpen : osOpen OS.healthy disk infile = .ok ⟨infile, false⟩ := by
      simp [osOpen, OS.healthy, hin]
    have hCreate : osCreate OS.healthy disk encfile
        = (disk.set encfile (some []), .ok ⟨encfile, false⟩) := rfl
    simp only [EncFile, hOpen, hCreate, hstepE]
    rfl
  rw [hEnc]
  -- the decryption
  have hin2 : (disk.set encfile (some (sio.Encrypt (dare20 key) p).chunks.flatten)) encfile
      = some (sio.Encrypt (dare20 key) p).chunks.flatten := Disk.set_same _ _ _
  have hsrc2 : (((disk.set encfile (some (sio.Encrypt (dare20 key) p).chunks.flatten)).set
      outfile (some [])) encfile).getD [] = (sio.Encrypt (dare20 key) p).chunks.flatten := by
    rw [Disk.set_other _ _ _ _ hne2, hin2]; rfl
  have hrunD := writeAll_file OS.healthy ⟨outfile, false⟩ rfl (hw outfile)
    (sio.Decrypt (dare20 key) (sio.Encrypt (dare20 key) p).chunks.flatten).chunks
    ((disk.set encfile (some (sio.Encrypt (dare20 key) p).chunks.flatten)).set
      outfile (some [])) [] 0 (Disk.set_same _ _ _)
  have hstepD : decryptStep OS.healthy sio
      ((disk.set encfile (some (sio.Encrypt (dare20 key) p).chunks.flatten)).set
        outfile (some [])) ⟨encfile, false⟩ ⟨outfile, false⟩ key
      = ((disk.set encfile (some (sio.Encrypt (dare20 key) p).chunks.flatten)).set
          outfile (some p), p.length, none) := by
    show sioCopy (sio.Decrypt (dare20 key)
        ((((disk.set encfile (some (sio.Encrypt (dare20 key) p).chunks.flatten)).set
          outfile (some [])) encfile).getD []))
      (fun d chunk => fileWrite OS.healthy d ⟨outfile, false⟩ chunk)
      ((disk.set encfile (some (sio.Encrypt (dare20 key) p).chunks.flatten)).set
        outfile (some [])) = _
    rw [hsrc2, sioCopy_of_writeAll hrunD, he2, he3]
    simp [Disk.set_set]
  have hDec : DecFile OS.healthy sio
      (disk.set encfile (some (sio.Encrypt (dare20 key) p).chunks.flatten))
      encfile outfile key
      = ((disk.set encfile (some (sio.Encrypt (dare20 key) p).chunks.flatten)).set
          outfile (some p), none) := by
    have hOpen : osOpen OS.healthy
        (disk.set encfile (some (sio.Encrypt (dare20 key) p).chunks.flatten)) encfile
        = .ok ⟨encfile, false⟩ := by
      simp [osOpen, OS.healthy, hin2]
    have hCreate : osCreate OS.healthy
        (disk.set encfile (some (sio.Encrypt (dare20 key) p).chunks.flatten)) outfile
        = ((disk.set encfile (some (sio.Encrypt (dare20 key) p).chunks.flatten)).set
            outfile (some []), .ok ⟨outfile, false⟩) := rfl
    simp only [DecFile, hOpen, hCreate, hstepD]
    rfl
  rw [hDec]
  exact ⟨rfl, rfl, Disk.set_same _ _ _⟩

/-- The stand-in for `sio` decrypts what it encrypted from a source that is
not empty. -/
theorem toySio_roundtrip : ∀ k : List Byte, k.length = 32 → ∀ src : List Byte, src ≠ [] →
    (toySio.Encrypt (dare20 k) src).err = none
    ∧ (toySio.Decrypt (dare20 k) (toySio.Encrypt (dare20 k) src).chunks.flatten).err = none
    ∧ (toySio.Decrypt (dare20 k) (toySio.Encrypt (dare20 k) src).chunks.flatten).chunks.flatten
        = src := by
  intro k hk src hsrc
  cases src with
  | nil => exact absurd rfl hsrc
  | cons a t => simp [toySio, dare20, hk]

/-- C3 (amended) at a three byte file, with the stand-in for `sio`. -/
theorem EncFile_DecFile_roundtrip_witness :
    (EncFile OS.healthy toySio toyLib diskIn "in" "enc" key32).err = none
    ∧ (DecFile OS.healthy toySio (EncFile OS.healthy toySio toyLib diskIn "in" "enc" key32).disk
        "enc" "out" key32).2 = none
    ∧ (DecFile OS.healthy toySio (EncFile OS.healthy toySio toyLib diskIn "in" "enc" key32).disk
        "enc" "out" key32).1 "out" = some [1, 2, 3] :=
  EncFile_DecFile_roundtrip toySio toyLib diskIn "in" "enc" "out" key32 [1, 2, 3]
    toySio_roundtrip rfl (by decide) rfl (by decide) (by decide)

/-- The stand-in for `sio` does at the empty source what the library does. -/
theorem toySio_emptySource : toySio.emptySource := by
  intro cfg hk
  simp [toySio, hk]

/-- With a library that does at the empty source what `minio/sio` does, the
round trip of an empty file fails: `EncFile` succeeds and leaves an empty
file, and `DecFile` of it returns an error and leaves no output file. -/
theorem EncFile_DecFile_empty (sio : Sio) (lib : GoLib) (disk : Disk)
    (infile encfile outfile : String) (key : List Byte)
    (hsio : sio.emptySource) (hkey : key.length = 32)
    (hin : disk infile = some [])
    (hne1 : infile ≠ encfile) (hne2 : encfile ≠ outfile) :
    (EncFile OS.healthy sio lib disk infile encfile key).err = none
    ∧ (EncFile OS.healthy sio lib disk infile encfile key).disk encfile = some []
    ∧ (DecFile OS.healthy sio (EncFile OS.healthy sio lib disk infile encfile key).disk
        encfile outfile key).2 ≠ none
    ∧ (DecFile OS.healthy sio (EncFile OS.healthy sio lib disk infile encfile key).disk
        encfile outfile key).1 outfile = none := by
  obtain ⟨hE, hD⟩ := hsio (dare20 key) hkey
  have hsrc : ((disk.set encfile (some [])) infile).getD [] = [] := by
    rw [Disk.set_other _ _ _ _ hne1, hin]; rfl
  have hstepE : encryptStep OS.healthy sio (disk.set encfile (some [])) ⟨infile, false⟩
      ⟨encfile, false⟩ key = (([], disk.set encfile (some [])), 0, none) := by
    rw [encryptStep_config]
    simp only [hsrc, hE]
    rfl
  have hEnc : EncFile OS.healthy sio lib disk infile encfile key
      = ⟨disk.set encfile (some []), some (NewDigest lib digestCanonical []), 0, none⟩ := by
    have hOpen : osOpen OS.healthy disk infile = .ok ⟨infile, false⟩ := by
      simp [osOpen, OS.healthy, hin]
    have hCreate : osCreate OS.healthy disk encfile
        = (disk.set encfile (some []), .ok ⟨encfile, false⟩) := rfl
    simp only [EncFile, hOpen, hCreate, hstepE]
    rfl
  rw [hEnc]
  have hin2 : (disk.set encfile (some [])) encfile = some [] := Disk.set_same _ _ _
  have hsrc2 : (((disk.set encfile (some [])).set outfile (some [])) encfile).getD [] = [] := by
    rw [Disk.set_other _ _ _ _ hne2, hin2]; rfl
  have hstepD : decryptStep OS.healthy sio ((disk.set encfile (some [])).set outfile (some []))
      ⟨encfile, false⟩ ⟨outfile, false⟩ key
      = ((disk.set encfile (some [])).set outfile (some []), 0, some sioErrUnexpectedEOF) := by
    rw [decryptStep_config]
    simp only [hsrc2, hD]
    rfl
  have hDec : DecFile OS.healthy sio (disk.set encfile (some [])) encfile outfile key
      = (((disk.set encfile (some [])).set outfile (some [])).set outfile none,
          some (Err.errors [some (Err.errors [some sioErrUnexpectedEOF, none, none]),
            some osErrClosed])) := by
    have hOpen : osOpen OS.healthy (disk.set encfile (some [])) encfile
        = .ok ⟨encfile, false⟩ := by
      simp [osOpen, OS.healthy, hin2]
    have hCreate : osCreate OS.healthy (disk.set encfile (some [])) outfile
        = ((disk.set encfile (some [])).set outfile (some []), .ok ⟨outfile, false⟩) := rfl
    have hRemove : osRemove OS.healthy ((disk.set encfile (some [])).set outfile (some []))
        outfile = (((disk.set encfile (some [])).set outfile (some [])).set outfile none,
          none) := by
      simp [osRemove, OS.healthy, Disk.set_same]
    simp only [DecFile, hOpen, hCreate, hstepD, hRemove]
    rfl
  rw [hDec]
  exact ⟨rfl, Disk.set_same _ _ _, by simp, Disk.set_same _ _ _⟩

/-- C3 as stated fails at the empty file. `sio.Encrypt` writes nothing for
the empty source, so `EncFile` succeeds and leaves an empty file; `sio.Decrypt`
rejects the empty stream, so `DecFile` returns an error and removes the
output: no file with the content of the source is left. -/
theorem EncFile_DecFile_empty_file_fails :
    toySio.emptySource
    ∧ diskEmptyIn "in" = some []
    ∧ (EncFile OS.healthy toySio toyLib diskEmptyIn "in" "enc" key32).err = none
    ∧ (DecFile OS.healthy toySio
        (EncFile OS.healthy toySio toyLib diskEmptyIn "in" "enc" key32).disk
        "enc" "out" key32).2
      = some (Err.errors [some (Err.errors [some sioErrUnexpectedEOF, none, none]),
          some osErrClosed])
    ∧ (DecFile OS.healthy toySio
        (EncFile OS.healthy toySio toyLib diskEmptyIn "in" "enc" key32).disk
        "enc" "out" key32).1 "out" = none :=
  ⟨toySio_emptySource, rfl, rfl, rfl, rfl⟩

/-! ## `respond`, `quitUnVerified`, `PullFromDigest` -/

/-- One write of the loop of `respond` on an open handle whose writes do not
fail, to a file that is there: the chunk is appended to the file. -/
theorem respondWrite_file (os : OS) (fh : Handle) (hopen : fh.closed = false)
    (hw : ∀ k, os.writeErr fh.path k = none) (s : CopyState) (c0 chunk : List Byte)
    (hfile : s.disk fh.path = some c0) :
    respondWrite os fh s chunk
      = (⟨s.fed ++ chunk, s.written ++ chunk, s.bar + chunk.length,
          s.disk.set fh.path (some (c0 ++ chunk))⟩, none) := by
  simp [respondWrite, fileWrite, hopen, hfile, hw]

/-- The loop of `respond` on a body that ends with `io.EOF`, through an open
handle whose writes do not fail, to a file that is there: it ends by `break`,
the verifier has been given the body, and the body has been appended to the
file. -/
theorem respondLoop_file (os : OS) (fn : String) (fh : Handle) (hopen : fh.closed = false)
    (hw : ∀ k, os.writeErr fh.path k = none) :
    ∀ (fuel : Nat) (s : CopyState) (data c0 : List Byte), data.length < fuel →
      s.disk fh.path = some c0 →
      ∃ s1, respondLoop os fn fh fuel s ⟨data, none⟩ = some (s1, LoopEnd.broke ioEOF)
        ∧ s1.fed = s.fed ++ data ∧ s1.written = s.written ++ data
        ∧ s1.disk = s.disk.set fh.path (some (c0 ++ data)) := by
  intro fuel
  induction fuel with
  | zero => intro s data c0 h; omega
  | succ fuel ih =>
    intro s data c0 hlen hfile
    by_cases hfull : 512 ≤ data.length
    · have htake : (data.take 512).length = 512 := by
        rw [List.length_take]; omega
      have hne : (data.take 512).isEmpty = false := by
        cases hx : data.take 512 with
        | nil => rw [hx] at htake; simp at htake
        | cons a t => rfl
      have hwr := respondWrite_file os fh hopen hw s c0 (data.take 512) hfile
      have hdrop : (data.drop 512).length < fuel := by
        rw [List.length_drop]; omega
      obtain ⟨s1, h1, h2, h3, h4⟩ := ih
        ⟨s.fed ++ data.take 512, s.written ++ data.take 512, s.bar + (data.take 512).length,
          s.disk.set fh.path (some (c0 ++ data.take 512))⟩
        (data.drop 512) (c0 ++ data.take 512) hdrop (Disk.set_same _ _ _)
      refine ⟨s1, ?_, ?_, ?_, ?_⟩
      · simp only [respondLoop, ioCopyN, hne, Bool.false_eq_true, if_false, hwr, htake,
          if_true]
        rw [htake] at h1
        exact h1
      · rw [h2]; simp [List.append_assoc, List.take_append_drop]
      · rw [h3]; simp [List.append_assoc, List.take_append_drop]
      · rw [h4]; simp [Disk.set_set, List.append_assoc, List.take_append_drop]
    · have hall : data.take 512 = data := List.take_of_length_le (by omega)
      have hlt : ¬ data.length = 512 := by omega
      cases hdata : data with
      | nil =>
        refine ⟨s, ?_, by simp, by simp, ?_⟩
        · simp [respondLoop, ioCopyN, ioEOF, Err.isEOF]
        · simp [Disk.set_self _ _ _ hfile]
      | cons a t =>
        rw [hdata] at hall hlt
        have hwr := respondWrite_file os fh hopen hw s c0 (a :: t) hfile
        refine ⟨⟨s.fed ++ (a :: t), s.written ++ (a :: t), s.bar + (a :: t).length,
          s.disk.set fh.path (some (c0 ++ (a :: t)))⟩, ?_, rfl, rfl, rfl⟩
        simp only [respondLoop, ioCopyN, hall, List.isEmpty_cons, Bool.false_eq_true, if_false,
          hwr, hlt, Option.getD_none]
        simp [ioEOF, Err.isEOF]

/-- What `respond` does with a body it can read to the end, on an open handle
whose writes do not fail, for an expected digest under an algorithm go-digest
has: it returns, every byte of the body has gone to the file and to the
verifier, the error is nil exactly when the digest matches, and the disk is
the one with the body appended to the file, after `os.Remove(fn)` when the
error is not nil. -/
theorem respond_body_on_disk (lib : GoLib) (os : OS) (disk : Disk) (resp : Response)
    (d : Digest) (fn : String) (fh : Handle) (size : Int) (c0 : List Byte)
    (hlen : lib.atoi resp.ContentLength = .ok size)
    (havail : algorithmAvailable d.algorithm = true)
    (hread : resp.Body.readErr = none)
    (hopen : fh.closed = false)
    (hfile : disk fh.path = some c0)
    (hwrite : ∀ k, os.writeErr fh.path k = none) :
    ∃ r, respond lib os disk resp d fn fh = some (Exec.returned r)
      ∧ r.state.written = resp.Body.data
      ∧ r.state.fed = resp.Body.data
      ∧ (r.err = none ↔ d = NewDigest lib d.algorithm resp.Body.data)
      ∧ (r.err = none →
          r.state.disk = disk.set fh.path (some (c0 ++ resp.Body.data)))
      ∧ (r.err ≠ none →
          r.state.disk
            = (osRemove os (disk.set fh.path (some (c0 ++ resp.Body.data))) fn).1) := by
  obtain ⟨s1, hloop, hfed, hwritten, hdisk⟩ := respondLoop_file os fn fh hopen hwrite
    (resp.Body.data.length + 1) ⟨[], [], 0, disk⟩ resp.Body.data c0 (Nat.lt_succ_self _) hfile
  have hbody : resp.Body = ⟨resp.Body.data, none⟩ := by
    cases hb : resp.Body with
    | mk data readErr => rw [hb] at hread; simp only at hread; rw [hread]
  rw [← hbody] at hloop
  simp only [List.nil_append] at hfed hwritten
  simp only at hdisk
  by_cases hv : d = NewDigest lib d.algorithm resp.Body.data
  · refine ⟨⟨none, s1, fh⟩, ?_, hwritten, hfed, ⟨fun _ => hv, fun _ => rfl⟩,
      fun _ => hdisk, fun h => absurd rfl h⟩
    have hV : Verified lib d s1.fed = true := by
      rw [hfed]; simpa [Verified] using hv
    simp [respond, hlen, havail, hloop, hV]
  · have hV : Verified lib d s1.fed = false := by
      rw [hfed]; simpa [Verified] using hv
    have hq : (quitUnVerified os s1.disk fn fh (some ioEOF)).err ≠ none := by
      simp [quitUnVerified, errorsWrapf]
    refine ⟨⟨(quitUnVerified os s1.disk fn fh (some ioEOF)).err,
      { s1 with disk := (quitUnVerified os s1.disk fn fh (some ioEOF)).disk },
      (quitUnVerified os s1.disk fn fh (some ioEOF)).fh⟩, ?_, hwritten, hfed, ?_, ?_, ?_⟩
    · simp [respond, hlen, havail, hloop, hV]
    · exact ⟨fun h => absurd h hq, fun h => absurd h hv⟩
    · intro h; exact absurd h hq
    · intro _
      simp only [quitUnVerified, Option.isSome_some, if_true, hdisk]

/-- C10 (amended): for every expected digest whose algorithm go-digest has,
every body delivered without a read error, a `Content-Length` that
`strconv.Atoi` accepts, and an open handle whose writes do not fail on a file
that holds `c0` (nothing, when `os.Create` has just made it), `respond`
returns; the bytes `fh.Write` has accepted and the bytes the verifier has
been given are exactly the body; the error is nil exactly when the expected
digest is the digest of the body; with a nil error the file of the handle
holds `c0` followed by the body, and otherwise the disk is the one on which
it holds that and `os.Remove(fn)` has then been called. -/
theorem respond_streams_body (lib : GoLib) (os : OS) (disk : Disk) (resp : Response)
    (d : Digest) (fn : String) (fh : Handle) (size : Int) (c0 : List Byte)
    (hlen : lib.atoi resp.ContentLength = .ok size)
    (havail : algorithmAvailable d.algorithm = true)
    (hread : resp.Body.readErr = none)
    (hopen : fh.closed = false)
    (hfile : disk fh.path = some c0)
    (hwrite : ∀ k, os.writeErr fh.path k = none) :
    ∃ r, respond lib os disk resp d fn fh = some (Exec.returned r)
      ∧ r.state.written = resp.Body.data
      ∧ r.state.fed = resp.Body.data
      ∧ (r.err = none ↔ d = NewDigest lib d.algorithm resp.Body.data)
      ∧ (r.err = none →
          r.state.disk = disk.set fh.path (some (c0 ++ resp.Body.data)))
      ∧ (r.err ≠ none →
          r.state.disk
            = (osRemove os (disk.set fh.path (some (c0 ++ resp.Body.data))) fn).1) :=
  respond_body_on_disk lib os disk resp d fn fh size c0 hlen havail hread hopen hfile hwrite

/-- C10 (amended) at a three byte body written to a file just created: once
with the expected digest of the body, where `respond` returns nil and the
file holds the body, and once with another expected digest. -/
theorem respond_streams_body_witness :
    (∃ r, respond toyLib OS.healthy diskCreated ⟨200, "3", ⟨[1, 2, 3], none⟩⟩ digest3 "dir/00"
          ⟨"dir/00", false⟩ = some (Exec.returned r)
      ∧ r.state.written = [1, 2, 3]
      ∧ r.state.fed = [1, 2, 3]
      ∧ (r.err = none ↔ digest3 = NewDigest toyLib digest3.algorithm [1, 2, 3])
      ∧ (r.err = none → r.state.disk = diskCreated.set "dir/00" (some ([] ++ [1, 2, 3])))
      ∧ (r.err ≠ none → r.state.disk
          = (osRemove OS.healthy (diskCreated.set "dir/00" (some ([] ++ [1, 2, 3])))
              "dir/00").1))
    ∧ (∃ r, respond toyLib OS.healthy diskCreated ⟨200, "3", ⟨[1, 2, 3], none⟩⟩ digest00
          "dir/00" ⟨"dir/00", false⟩ = some (Exec.returned r)
      ∧ r.state.written = [1, 2, 3]
      ∧ r.state.fed = [1, 2, 3]
      ∧ (r.err = none ↔ digest00 = NewDigest toyLib digest00.algorithm [1, 2, 3])
      ∧ (r.err = none → r.state.disk = diskCreated.set "dir/00" (some ([] ++ [1, 2, 3])))
      ∧ (r.err ≠ none → r.state.disk
          = (osRemove OS.healthy (diskCreated.set "dir/00" (some ([] ++ [1, 2, 3])))
              "dir/00").1))
    ∧ (respond toyLib OS.healthy diskCreated ⟨200, "3", ⟨[1, 2, 3], none⟩⟩ digest3 "dir/00"
          ⟨"dir/00", false⟩).map
        (fun x => match x with
          | Exec.returned r => (r.err.isNone, r.state.disk "dir/00")
          | _ => (false, none))
      = some (true, some [1, 2, 3]) :=
  ⟨respond_streams_body toyLib OS.healthy diskCreated ⟨200, "3", ⟨[1, 2, 3], none⟩⟩ digest3
      "dir/00" ⟨"dir/00", false⟩ 3 [] rfl rfl rfl rfl rfl (fun _ => rfl),
    respond_streams_body toyLib OS.healthy diskCreated ⟨200, "3", ⟨[1, 2, 3], none⟩⟩ digest00
      "dir/00" ⟨"dir/00", false⟩ 3 [] rfl rfl rfl rfl rfl (fun _ => rfl),
    rfl⟩

/-- C10 as stated fails. The expected digest is under `md5`, which go-digest
does not have: `d.Verifier()` panics, `respond` does not return, and no byte
of the body has been written. -/
theorem respond_unavailable_algorithm_panics :
    algorithmAvailable digestMd5.algorithm = false
    ∧ respond toyLib OS.healthy diskCreated ⟨200, "3", ⟨[1, 2, 3], none⟩⟩ digestMd5 "dir/00"
        ⟨"dir/00", false⟩
      = some (Exec.panicked "md5 not available (make sure it is imported)") :=
  ⟨by decide, rfl⟩

/-- C8 (amended): when the algorithm of `d` is one go-digest has, the request
is answered in time with status 200, the file is created, the
`Content-Length` is well-formed, the body is delivered without a read error,
no write to the file fails, and the digest of the body differs from `d`, then
`PullFromDigest` returns the target path with a non-nil error, and the file
at the target path does not exist afterwards when its removal did not
fail. -/
theorem PullFromDigest_mismatch_removed (lib : GoLib) (os : OS) (disk : Disk) (net : Network)
    (d : Digest) (dir urlStr : String) (resp : Response) (size : Int)
    (havail : algorithmAvailable d.algorithm = true)
    (hurl : net.blobURL = .ok urlStr) (hreq : net.newRequest = .ok ())
    (hdo : net.doRequest = .ok resp) (hctx : net.ctxDone = false)
    (hstatus : resp.StatusCode = httpStatusOK)
    (hcreate : os.createErr (lib.join dir d.encoded) = none)
    (hlen : lib.atoi resp.ContentLength = .ok size)
    (hread : resp.Body.readErr = none)
    (hwrite : ∀ k, os.writeErr (lib.join dir d.encoded) k = none)
    (hmis : NewDigest lib d.algorithm resp.Body.data ≠ d) :
    ∃ disk1 err, PullFromDigest lib os disk net d dir
        = some (Exec.returned (disk1, lib.join dir d.encoded, some err))
      ∧ (os.removeErr (lib.join dir d.encoded) = none → disk1 (lib.join dir d.encoded) = none) := by
  obtain ⟨r, hresp, _, _, hiff, _, hne⟩ := respond_body_on_disk lib os
    (disk.set (lib.join dir d.encoded) (some [])) resp d (lib.join dir d.encoded)
    ⟨lib.join dir d.encoded, false⟩ size [] hlen havail hread rfl (Disk.set_same _ _ _) hwrite
  have herr : r.err ≠ none := fun h => hmis (hiff.mp h).symm
  obtain ⟨err, herr1⟩ := Option.ne_none_iff_exists'.mp herr
  refine ⟨r.state.disk, err, ?_, ?_⟩
  · simp [PullFromDigest, download, hurl, hreq, hdo, hctx, hstatus, osCreate, hcreate, hresp,
      herr1]
  · intro hr
    rw [hne herr]
    simp [osRemove, hr, Disk.set_same]

/-- C8 (amended) at a three byte body on an operating system on which no
call fails. -/
theorem PullFromDigest_mismatch_removed_witness :
    ∃ disk1 err, PullFromDigest toyLib OS.healthy (fun _ => none) (okNetwork [1, 2, 3]) digest00
          "dir" = some (Exec.returned (disk1, "dir/00", some err))
      ∧ (OS.healthy.removeErr "dir/00" = none → disk1 "dir/00" = none) :=
  PullFromDigest_mismatch_removed toyLib OS.healthy (fun _ => none) (okNetwork [1, 2, 3])
    digest00 "dir" "https://registry.example/v2/repo/blobs/sha256:00"
    ⟨200, "3", ⟨[1, 2, 3], none⟩⟩ 3 rfl rfl rfl rfl rfl rfl rfl rfl rfl (fun _ => rfl)
    (by decide)

/-- C8 as stated fails, in two ways. The digest of the body differs from the
expected one, the `Content-Length` is well-formed, there is no read error and
a removal would not fail. When the first write to the file fails, `respond`
returns the wrapped write error from inside the loop, and the file at the
target path is still there. And when the expected digest is under `md5`,
which go-digest does not have, `d.Verifier()` panics after the file has been
created: no error is returned. -/
theorem PullFromDigest_write_error_keeps_file :
    (NewDigest toyLib digest00.algorithm [1, 2, 3] ≠ digest00
      ∧ OS.diskFull.removeErr "dir/00" = none
      ∧ (PullFromDigest toyLib OS.diskFull (fun _ => none) (okNetwork [1, 2, 3]) digest00
            "dir").map
          (fun x => match x with
            | Exec.returned r => (r.1 "dir/00", r.2.1, r.2.2)
            | _ => (none, "", none))
          = some (some [], "dir/00",
              some (Err.wrap (Err.leaf "no space left on device") "filename = dir/00")))
    ∧ (NewDigest toyLib digestMd5.algorithm [1, 2, 3] ≠ digestMd5
      ∧ PullFromDigest toyLib OS.healthy (fun _ => none) (okNetwork [1, 2, 3]) digestMd5 "dir"
          = some (Exec.panicked "md5 not available (make sure it is imported)")) :=
  ⟨⟨by decide, rfl, rfl⟩, by decide, rfl⟩

/-- C9 at the failing input: the removal and the close would both succeed,
and `quitUnVerified`, called with `io.EOF` as `respond` calls it, removes the
file, leaves the handle open, and returns the "unverified data was NOT
deleted" error. -/
theorem quitUnVerified_reports_not_deleted :
    (quitUnVerified OS.healthy diskBlob "dir/00" ⟨"dir/00", false⟩ (some ioEOF)).disk "dir/00"
        = none
    ∧ (quitUnVerified OS.healthy diskBlob "dir/00" ⟨"dir/00", false⟩ (some ioEOF)).fh.closed
        = false
    ∧ (quitUnVerified OS.healthy diskBlob "dir/00" ⟨"dir/00", false⟩ (some ioEOF)).err
        = some (Err.wrap (Err.errors [some ioEOF, none])
            "unverified data was NOT deleted. To clean manaually delete: dir/00") :=
  ⟨rfl, rfl, rfl⟩

/-- Whatever non-nil error it is given, and `respond` always gives it
`io.EOF`, `quitUnVerified` takes its first branch: it does not close the
handle and reports the data as not deleted, whether or not the removal
failed. -/
theorem quitUnVerified_first_branch (os : OS) (disk : Disk) (fn : String) (fh : Handle)
    (e : Err) :
    (quitUnVerified os disk fn fh (some e)).fh = fh
    ∧ (quitUnVerified os disk fn fh (some e)).err
        = some (Err.wrap (Err.errors [some e, (osRemove os disk fn).2])
            ("unverified data was NOT deleted. To clean manaually delete: " ++ fn)) := by
  simp [quitUnVerified, errorsWrapf]

/-! ## Key wrapping -/

/-- The stand-in cipher opens what it sealed. -/
theorem toyCipher_opens : ∀ kek nonce plaintext : List Byte,
    toyCipher.openKey kek (toyCipher.sealKey kek nonce plaintext) = some plaintext := by
  intro kek nonce plaintext
  simp [toyCipher, List.isPrefixOf_iff_prefix]

/-- C1: for every key object `c` created under the algorithm of `opts`, and
every `opts` whose algorithm is `None` or PBKDF2-AES256-GCM (with or without
`Compat`), `EncryptKey c opts` succeeds and `DecryptKey` of its result under
the same `opts` succeeds and returns `c`. The authenticated encryption is
assumed to open what it sealed under the same key. -/
theorem EncryptKey_DecryptKey_roundtrip (C : KeyCipher) (nonce : List Byte) (c : DeCrypto)
    (opts : Opts)
    (hC : ∀ kek nonce plaintext, C.openKey kek (C.sealKey kek nonce plaintext) = some plaintext)
    (hsupported : opts.Algos = Algos.None ∨ opts.Algos = Algos.Pbkdf2Aes256Gcm)
    (hc : c.Algos = opts.Algos) :
    ∃ e, EncryptKey C nonce c opts = .ok e ∧ DecryptKey C e opts = .ok c := by
  rcases c with ⟨key, algos, salt⟩
  simp only at hc
  subst hc
  rcases hsupported with h | h
  · refine ⟨⟨KeyForm.raw key, Algos.None, salt⟩, ?_, ?_⟩
    · simp [EncryptKey, h]
    · simp [DecryptKey, h]
  · cases hcompat : opts.Compat with
    | true =>
      refine ⟨⟨KeyForm.url Algos.Pbkdf2Aes256Gcm
        (C.sealKey (C.kdf opts.passphrase salt) nonce key), Algos.Pbkdf2Aes256Gcm, salt⟩, ?_, ?_⟩
      · simp [EncryptKey, h, hcompat]
      · simp [DecryptKey, h, hcompat, hC]
    | false =>
      refine ⟨⟨KeyForm.raw (C.sealKey (C.kdf opts.passphrase salt) nonce key),
        Algos.Pbkdf2Aes256Gcm, salt⟩, ?_, ?_⟩
      · simp [EncryptKey, h, hcompat]
      · simp [DecryptKey, h, hcompat, hC]

/-- C1 at the options `optsCompat` of the tests, with the stand-in cipher. -/
theorem EncryptKey_DecryptKey_roundtrip_witness :
    ∃ e, EncryptKey toyCipher [0, 1] (NewDecrypto optsCompat key32 "salt") optsCompat = .ok e
      ∧ DecryptKey toyCipher e optsCompat = .ok (NewDecrypto optsCompat key32 "salt") :=
  EncryptKey_DecryptKey_roundtrip toyCipher [0, 1] (NewDecrypto optsCompat key32 "salt")
    optsCompat toyCipher_opens (Or.inr rfl) rfl

/-- C2: when the algorithms of `optsA` and `optsB` differ, every key wrapped
under `optsA` is refused by `DecryptKey` under `optsB`, and a key object
created under the algorithm of `optsA` is refused by `EncryptKey` under
`optsB`; both with exactly the non-fatal error "encryption type does not
match decryption type". -/
theorem type_mismatch_error (C : KeyCipher) (nonce : List Byte) (c : DeCrypto)
    (optsA optsB : Opts) (hne : optsA.Algos ≠ optsB.Algos) :
    (∀ e, EncryptKey C nonce c optsA = .ok e → DecryptKey C e optsB = .error errTypeMismatch)
    ∧ (c.Algos = optsA.Algos → EncryptKey C nonce c optsB = .error errTypeMismatch) := by
  constructor
  · intro e he
    have htag : e.Algos = optsA.Algos := by
      unfold EncryptKey at he
      by_cases h : c.Algos ≠ optsA.Algos
      · simp [h] at he
      · simp only [h, if_false] at he
        cases ha : optsA.Algos with
        | None => simp only [ha] at he; cases he; rfl
        | Pbkdf2Aes256Gcm =>
          simp only [ha] at he
          cases hcompat : optsA.Compat <;> simp only [hcompat] at he <;> cases he <;> rfl
        | other name => simp [ha] at he
    have : e.Algos ≠ optsB.Algos := by rw [htag]; exact hne
    simp [DecryptKey, this]
  · intro hc
    have : c.Algos ≠ optsB.Algos := by rw [hc]; exact hne
    simp [EncryptKey, this]

/-- C2 at the pair of options of the tests, PBKDF2-AES256-GCM against
`None`. -/
theorem type_mismatch_error_witness :
    optsPbkdf2.Algos ≠ optsNone.Algos
    ∧ (∀ e, EncryptKey toyCipher [0, 1] (NewDecrypto optsPbkdf2 key32 "salt") optsPbkdf2 = .ok e →
        DecryptKey toyCipher e optsNone = .error errTypeMismatch)
    ∧ ((NewDecrypto optsPbkdf2 key32 "salt").Algos = optsPbkdf2.Algos →
        EncryptKey toyCipher [0, 1] (NewDecrypto optsPbkdf2 key32 "salt") optsNone
          = .error errTypeMismatch) :=
  ⟨by decide, type_mismatch_error toyCipher [0, 1] (NewDecrypto optsPbkdf2 key32 "salt")
    optsPbkdf2 optsNone (by decide)⟩

/-! ## `numLayers` and the marker -/

/-- C14 (amended): `numLayers` stops at the first entry that is trivial (size
zero, created-by text containing "#(nop)") and whose text contains the marker
label: it returns the number of non-trivial entries strictly before that
entry, whatever follows it. An entry with the label that is not trivial is
among those counted. -/
theorem numLayers_stops_at_trivial_marker (pre : List HistoryResponseItem)
    (mk : HistoryResponseItem) (post : List HistoryResponseItem)
    (hpre : ∀ h ∈ pre, nonTrivial h = true ∨ carriesMarker h = false)
    (hmk : nonTrivial mk = false ∧ carriesMarker mk = true) :
    numLayers (pre ++ mk :: post) = Exec.returned ((pre.filter nonTrivial).length, none) := by
  simp [numLayers, numLayersLoop_marker pre mk post 0 hpre hmk]

/-- C14 (amended) at a history with a counted label entry before the trivial
marker entry and a layer after it. -/
theorem numLayers_stops_at_trivial_marker_witness :
    numLayers ([runEntry, plainMarker] ++ classicMarker :: [runEntry])
      = Exec.returned (([runEntry, plainMarker].filter nonTrivial).length, none) :=
  numLayers_stops_at_trivial_marker [runEntry, plainMarker] classicMarker [runEntry]
    (by decide) (by decide)

/-- C14 as stated fails. The first entry whose text contains the marker label
is the first of the list, with no entry before it, so the claim has the count
0; the entry lacks "#(nop)", `numLayers` counts it and goes on to the next
marker entry, and returns 1. -/
theorem numLayers_counts_label_entry :
    carriesMarker plainMarker = true
    ∧ numLayers [plainMarker, classicMarker] = Exec.returned (1, none) :=
  ⟨by decide, rfl⟩

/-! ## The two-image variant of `obtainImageData` -/

theorem layerMapCount_incr (m : List (String × Nat)) (x y : String) :
    layerMapCount (layerMapIncr m x) y = layerMapCount m y + (if x = y then 1 else 0) := by
  induction m with
  | nil => simp [layerMapIncr, layerMapCount]
  | cons kv rest ih =>
    rcases kv with ⟨k, v⟩
    by_cases hkx : k = x
    · subst hkx
      by_cases hky : k = y
      · simp [layerMapIncr, layerMapCount, hky]
      · simp [layerMapIncr, layerMapCount, hky]
    · by_cases hky : k = y
      · have hxy : ¬ x = y := fun h => hkx (hky.trans h.symm)
        have hyx : ¬ y = x := fun h => hxy h.symm
        subst hky
        simp [layerMapIncr, layerMapCount, hyx, hxy]
      · simp [layerMapIncr, layerMapCount, hkx, hky, ih]

theorem layerMapCount_foldl (L : List String) (m : List (String × Nat)) (y : String) :
    layerMapCount (L.foldl layerMapIncr m) y = layerMapCount m y + L.count y := by
  induction L generalizing m with
  | nil => simp
  | cons a t ih =>
    simp only [List.foldl_cons, ih, layerMapCount_incr, List.count_cons]
    by_cases h : a = y
    · simp [h]; omega
    · have h2 : (a == y) = false := by simpa using h
      simp [h, h2]

theorem layerMapIncr_keys (m : List (String × Nat)) (x : String) :
    (layerMapIncr m x).map Prod.fst
      = if x ∈ m.map Prod.fst then m.map Prod.fst else m.map Prod.fst ++ [x] := by
  induction m with
  | nil => simp [layerMapIncr]
  | cons kv rest ih =>
    rcases kv with ⟨k, v⟩
    by_cases hkx : k = x
    · subst hkx; simp [layerMapIncr]
    · have hxk : ¬ x = k := fun h => hkx h.symm
      simp only [layerMapIncr, hkx, if_false, List.map_cons, ih, List.mem_cons, hxk, false_or]
      split <;> simp

theorem layerMapIncr_nodup (m : List (String × Nat)) (x : String)
    (h : (m.map Prod.fst).Nodup) : ((layerMapIncr m x).map Prod.fst).Nodup := by
  rw [layerMapIncr_keys]
  split
  · exact h
  · rename_i hx
    exact List.Nodup.append h (List.nodup_singleton x) (by simpa using hx)

theorem layerMap_foldl_nodup (L : List String) (m : List (String × Nat))
    (h : (m.map Prod.fst).Nodup) : ((L.foldl layerMapIncr m).map Prod.fst).Nodup := by
  induction L generalizing m with
  | nil => simpa using h
  | cons a t ih => exact ih _ (layerMapIncr_nodup m a h)

theorem layerMap_mem_iff (m : List (String × Nat)) (h : (m.map Prod.fst).Nodup) (x : String)
    (v : Nat) (hv : v ≠ 0) : (x, v) ∈ m ↔ layerMapCount m x = v := by
  induction m with
  | nil => simp [layerMapCount]; exact fun h0 => hv h0.symm
  | cons kv rest ih =>
    rcases kv with ⟨k, w⟩
    simp only [List.map_cons, List.nodup_cons] at h
    by_cases hkx : k = x
    · subst hkx
      have hnot : ∀ u, (k, u) ∉ rest := fun u hu => h.1 (List.mem_map_of_mem Prod.fst hu)
      simp only [List.mem_cons, Prod.mk.injEq, true_and, layerMapCount, if_true]
      constructor
      · rintro (h1 | h1)
        · exact h1.symm
        · exact absurd h1 (hnot v)
      · intro h1; exact Or.inl h1.symm
    · have hxk : ¬ x = k := fun e => hkx e.symm
      simp only [List.mem_cons, Prod.mk.injEq, hxk, false_and, false_or, layerMapCount, hkx,
        if_false]
      exact ih h.2

/-- The layers `obtainImageData` keeps from a layer map with distinct keys:
each key whose count is 1, once. -/
theorem layerMap_selection (m : List (String × Nat)) (h : (m.map Prod.fst).Nodup) :
    ((m.filter (fun kv => kv.2 = 1)).map (fun kv => kv.1)).Nodup
    ∧ ∀ x, x ∈ (m.filter (fun kv => kv.2 = 1)).map (fun kv => kv.1)
        ↔ layerMapCount m x = 1 := by
  constructor
  · exact List.Nodup.sublist (List.Sublist.map _ (List.filter_sublist m)) h
  · intro x
    rw [← layerMap_mem_iff m h x 1 (by decide)]
    simp only [List.mem_map, List.mem_filter, decide_eq_true_eq]
    constructor
    · rintro ⟨⟨k, v⟩, ⟨hm, hv⟩, hk⟩
      simp only at hv hk
      subst hv; subst hk
      exact hm
    · intro hm
      exact ⟨(x, 1), ⟨hm, rfl⟩, rfl⟩

/-- What the two-image variant returns, for all layer lists: the digests that
occur exactly once in the two lists taken together, each once. -/
theorem obtainImageData_counts_once (cli : DockerClient) (imageID : String)
    (hist : List HistoryResponseItem) (h0 h1 : HistoryResponseItem)
    (A B : List String) (id0 id1 : String) (inspt : ImageInspect) (img : List Byte)
    (hH : cli.ImageHistory imageID = .ok hist)
    (hh0 : hist.get? 0 = some h0)
    (hh1 : hist.get? (findLabel hist 0 + 1) = some h1)
    (hA : cli.ImageInspectWithRaw h0.ID = .ok ⟨id0, A⟩)
    (hB : cli.ImageInspectWithRaw h1.ID = .ok ⟨id1, B⟩)
    (hI : cli.ImageInspectWithRaw imageID = .ok inspt)
    (hS : cli.ImageSave [inspt.ID] = .ok img) :
    ∃ layers, obtainImageData (.ok cli) imageID = Exec.returned (some layers, some img, none)
      ∧ layers.Nodup ∧ ∀ x, x ∈ layers ↔ (A ++ B).count x = 1 := by
  have hlt : findLabel hist 0 + 1 < hist.length := by
    by_contra hc
    have := List.get?_eq_none.mpr (Nat.le_of_not_lt hc)
    rw [this] at hh1; cases hh1
  have hcond : ¬ ((findLabel hist 0 : Int) ≥ (hist.length : Int) - 1) := by omega
  cases hhist : hist with
  | nil => rw [hhist] at hlt; simp at hlt
  | cons e rest =>
    have he : e = h0 := by rw [hhist] at hh0; simpa using hh0
    subst he
    rw [hhist] at hcond hh1
    have hcount : countLayers cli [e.ID, h1.ID] []
        = .ok (B.foldl layerMapIncr (A.foldl layerMapIncr [])) := by
      simp [countLayers, hA, hB]
    have hkeys : ((B.foldl layerMapIncr (A.foldl layerMapIncr [])).map Prod.fst).Nodup :=
      layerMap_foldl_nodup B _ (layerMap_foldl_nodup A [] (by simp))
    obtain ⟨hnd, hmem⟩ := layerMap_selection _ hkeys
    refine ⟨_, ?_, hnd, ?_⟩
    · simp only [obtainImageData, hH, hhist, if_neg hcond, hh1, hcount, hI, hS]
    · intro x
      rw [hmem x, layerMapCount_foldl, layerMapCount_foldl, List.count_append]
      simp [layerMapCount]

/-- The part of C13 that holds: when neither of the two inspected images
repeats a digest in its layer list, the layers `obtainImageData` returns for
encryption are exactly the digests that occur in one of the lists `A`, `B`
and not in the other, each once. -/
theorem obtainImageData_symmetric_difference (cli : DockerClient) (imageID : String)
    (hist : List HistoryResponseItem) (h0 h1 : HistoryResponseItem)
    (A B : List String) (id0 id1 : String) (inspt : ImageInspect) (img : List Byte)
    (hH : cli.ImageHistory imageID = .ok hist)
    (hh0 : hist.get? 0 = some h0)
    (hh1 : hist.get? (findLabel hist 0 + 1) = some h1)
    (hA : cli.ImageInspectWithRaw h0.ID = .ok ⟨id0, A⟩)
    (hB : cli.ImageInspectWithRaw h1.ID = .ok ⟨id1, B⟩)
    (hI : cli.ImageInspectWithRaw imageID = .ok inspt)
    (hS : cli.ImageSave [inspt.ID] = .ok img)
    (hAnd : A.Nodup) (hBnd : B.Nodup) :
    ∃ layers, obtainImageData (.ok cli) imageID = Exec.returned (some layers, some img, none)
      ∧ layers.Nodup ∧ ∀ x, x ∈ layers ↔ (x ∈ A ∧ x ∉ B) ∨ (x ∈ B ∧ x ∉ A) := by
  obtain ⟨layers, hres, hnd, hmem⟩ := obtainImageData_counts_once cli imageID hist h0 h1 A B
    id0 id1 inspt img hH hh0 hh1 hA hB hI hS
  refine ⟨layers, hres, hnd, ?_⟩
  intro x
  rw [hmem x, List.count_append]
  by_cases hxA : x ∈ A
  · by_cases hxB : x ∈ B
    · rw [List.count_eq_one_of_mem hAnd hxA, List.count_eq_one_of_mem hBnd hxB]
      simp [hxA, hxB]
    · rw [List.count_eq_one_of_mem hAnd hxA, List.count_eq_zero_of_not_mem hxB]
      simp [hxA, hxB]
  · by_cases hxB : x ∈ B
    · rw [List.count_eq_zero_of_not_mem hxA, List.count_eq_one_of_mem hBnd hxB]
      simp [hxA, hxB]
    · rw [List.count_eq_zero_of_not_mem hxA, List.count_eq_zero_of_not_mem hxB]
      simp [hxA, hxB]

/-- The two-image variant at an image with one layer above its base
image. -/
theorem obtainImageData_symmetric_difference_witness :
    ∃ layers, obtainImageData (.ok (twoImageClient ["sha256:b", "sha256:n"] ["sha256:b"])) "top"
        = Exec.returned (some layers, some [], none)
      ∧ layers.Nodup
      ∧ ∀ x, x ∈ layers ↔ (x ∈ ["sha256:b", "sha256:n"] ∧ x ∉ ["sha256:b"])
          ∨ (x ∈ ["sha256:b"] ∧ x ∉ ["sha256:b", "sha256:n"]) :=
  obtainImageData_symmetric_difference (twoImageClient ["sha256:b", "sha256:n"] ["sha256:b"])
    "top" _ ⟨"top", 5, "/bin/sh -c echo hi > /f"⟩ ⟨"base", 9, "/bin/sh -c #(nop) ADD file:0 in /"⟩
    ["sha256:b", "sha256:n"] ["sha256:b"] "top" "base" ⟨"top", ["sha256:b", "sha256:n"]⟩ []
    rfl rfl rfl rfl rfl rfl rfl (by decide) (by decide)

/-- C13 at the failing input: the upper image holds the digest `sha256:e`
twice and the lower image does not hold it, so the digest is in the symmetric
difference of the two layer sets; but its count in `layerMap` is 2, the test
`v == 1` drops it, and `obtainImageData` returns no layer to encrypt. -/
theorem obtainImageData_repeated_layer_dropped :
    ("sha256:e" ∈ ["sha256:b", "sha256:e", "sha256:e"] ∧ "sha256:e" ∉ ["sha256:b"])
    ∧ obtainImageData (.ok (twoImageClient ["sha256:b", "sha256:e", "sha256:e"] ["sha256:b"]))
        "top" = Exec.returned (some [], some [], none) :=
  ⟨by decide, by rfl⟩

/-! ## `PullImage` -/

/-- A call of `io.CopyN` that returns nil has taken `n` bytes off the body. -/
theorem ioCopyN_nil {σ : Type} (write : σ → List Byte → σ × Option Err) (s s1 : σ)
    (body rest : Body) (n : Nat)
    (h : ioCopyN write s body n = (s1, rest, none)) :
    rest.data = body.data.drop n ∧ n ≤ body.data.length := by
  unfold ioCopyN at h
  simp only at h
  split at h
  · simp at h
  · split at h
    · rename_i hlen
      simp only [Prod.mk.injEq, and_true] at h
      refine ⟨by rw [← h.2], ?_⟩
      rw [List.length_take] at hlen
      omega
    · simp at h

/-- The loop of `respond` ends on every body, whatever fails. -/
theorem respondLoop_total (os : OS) (fn : String) (fh : Handle) :
    ∀ (fuel : Nat) (s : CopyState) (body : Body), body.data.length < fuel →
      ∃ r, respondLoop os fn fh fuel s body = some r := by
  intro fuel
  induction fuel with
  | zero => intro s body h; omega
  | succ fuel ih =>
    intro s body hlen
    rcases hc : ioCopyN (respondWrite os fh) s body 512 with ⟨s1, rest, e⟩
    cases e with
    | some err =>
      by_cases hE : err.isEOF = true
      · exact ⟨(s1, LoopEnd.broke err), by simp [respondLoop, hc, hE]⟩
      · exact ⟨(s1, LoopEnd.returned (Err.wrap err ("filename = " ++ fn))),
          by simp [respondLoop, hc, hE]⟩
    | none =>
      obtain ⟨hrest, hle⟩ := ioCopyN_nil _ _ _ _ _ _ hc
      have hlt : rest.data.length < fuel := by
        rw [hrest, List.length_drop]; omega
      obtain ⟨r, hr⟩ := ih s1 rest hlt
      exact ⟨r, by simp [respondLoop, hc, hr]⟩

/-- `respond` ends on every response: it returns or it panics. -/
theorem respond_total (lib : GoLib) (os : OS) (disk : Disk) (resp : Response) (d : Digest)
    (fn : String) (fh : Handle) :
    ∃ x, respond lib os disk resp d fn fh = some x ∧ ∀ msg, x ≠ Exec.fatal msg := by
  unfold respond
  cases lib.atoi resp.ContentLength with
  | error e => exact ⟨_, rfl, by simp⟩
  | ok n =>
    simp only
    by_cases ha : algorithmAvailable d.algorithm = false
    · simp only [ha, if_true]; exact ⟨_, rfl, by simp⟩
    · simp only [ha, if_false]
      obtain ⟨⟨s, e⟩, hr⟩ := respondLoop_total os fn fh (resp.Body.data.length + 1)
        ⟨[], [], 0, disk⟩ resp.Body (Nat.lt_succ_self _)
      simp only [hr]
      cases e with
      | returned err => exact ⟨_, rfl, by simp⟩
      | broke err =>
        by_cases hV : Verified lib d s.fed = false
        · simp only [hV, if_true]; exact ⟨_, rfl, by simp⟩
        · simp only [hV, if_false]; exact ⟨_, rfl, by simp⟩

/-- `PullFromDigest` ends on every answer of the registry: it returns or it
panics, and when it returns a nil error the filename is the target path. -/
theorem PullFromDigest_total (lib : GoLib) (os : OS) (disk : Disk) (net : Network)
    (d : Digest) (dir : String) :
    ∃ x, PullFromDigest lib os disk net d dir = some x
      ∧ (∀ msg, x ≠ Exec.fatal msg)
      ∧ (∀ disk1 fn, x = Exec.returned (disk1, fn, none) → fn = lib.join dir d.encoded) := by
  unfold PullFromDigest
  simp only
  cases net.blobURL with
  | error e => exact ⟨_, rfl, by simp, by simp⟩
  | ok urlStr =>
    cases net.newRequest with
    | error e => exact ⟨_, rfl, by simp, by simp⟩
    | ok u =>
      have hd : ∃ y, download lib os disk net (lib.join dir d.encoded) d = some y
          ∧ ∀ msg, y ≠ Exec.fatal msg := by
        unfold download
        cases net.doRequest with
        | error e => exact ⟨_, rfl, by simp⟩
        | ok resp =>
          simp only
          split
          · exact ⟨_, rfl, by simp⟩
          · split
            · exact ⟨_, rfl, by simp⟩
            · cases hce : os.createErr (lib.join dir d.encoded) with
              | some e => simp [osCreate, hce]
              | none =>
                obtain ⟨x, hx, hnf⟩ := respond_total lib os
                  (disk.set (lib.join dir d.encoded) (some [])) resp d
                  (lib.join dir d.encoded) ⟨lib.join dir d.encoded, false⟩
                simp only [osCreate, hce, hx]
                cases x with
                | returned r => exact ⟨_, rfl, by simp⟩
                | fatal msg => exact absurd rfl (hnf msg)
                | panicked msg => exact ⟨_, rfl, by simp⟩
      obtain ⟨y, hy, hnf⟩ := hd
      simp only [hy]
      cases y with
      | returned r =>
        rcases r with ⟨disk1, err⟩
        refine ⟨_, rfl, by simp, ?_⟩
        intro disk2 fn h
        simp only [Exec.returned.injEq, Prod.mk.injEq] at h
        exact h.2.1.symm
      | fatal msg => exact absurd rfl (hnf msg)
      | panicked msg => exact ⟨_, rfl, by simp, by simp⟩

/-- `PullManifest` never returns a nil manifest with a nil error. -/
theorem PullManifest_not_nil_nil (net : ManifestNetwork) (dir : String) :
    PullManifest net dir ≠ (none, none) := by
  unfold PullManifest
  cases net.manifestURL with
  | error e => simp
  | ok urlStr =>
    cases net.newRequest with
    | error e => simp
    | ok u =>
      cases net.doRequest with
      | error e => simp
      | ok resp =>
        simp only
        split
        · simp [CheckedClose_some_ne_none]
        · cases resp.Body.readErr with
          | some e => simp [CheckedClose_some_ne_none]
          | none =>
            cases net.unmarshal dir resp.Body.data with
            | error e => simp [CheckedClose_some_ne_none]
            | ok m => simp

theorem lastErr_cons_none (c : DownloadCall) (calls : List DownloadCall) (h : c.err = none) :
    lastErr (c :: calls) = lastErr calls := by
  cases calls with
  | nil => simp [lastErr, h]
  | cons c2 cs => simp [lastErr, List.getLast?_cons_cons]

/-- The downloads laid out for a list of digests end: the calls made are
those for a prefix of the list, every call but the last returned nil, when
the last returned nil too there is a call for every digest, and a call that
returned nil returned the target path of its digest. -/
theorem downloadsInOrder_calls (lib : GoLib) (os : OS) (blob : Digest → Network)
    (dir : String) :
    ∀ (ds : List Digest) (disk : Disk),
      ∃ y, downloadsInOrder lib os blob dir ds disk = some y
        ∧ (∀ msg, y ≠ Exec.fatal msg)
        ∧ ∀ diskF calls, y = Exec.returned (diskF, calls) →
            List.IsPrefix (calls.map (fun c => c.d)) ds
            ∧ (∀ c ∈ calls.dropLast, c.err = none)
            ∧ (lastErr calls = none → calls.map (fun c => c.d) = ds)
            ∧ (∀ c ∈ calls, c.err = none → c.filename = lib.join dir c.d.encoded)
            ∧ (ds ≠ [] → calls ≠ []) := by
  intro ds
  induction ds with
  | nil =>
    intro disk
    refine ⟨_, rfl, by simp, ?_⟩
    intro diskF calls h
    simp only [Exec.returned.injEq, Prod.mk.injEq] at h
    rw [← h.2]
    simp [lastErr]
  | cons d ds ih =>
    intro disk
    obtain ⟨x, hx, hnf, hfn⟩ := PullFromDigest_total lib os disk (blob d) d dir
    cases x with
    | fatal msg => exact absurd rfl (hnf msg)
    | panicked msg =>
      exact ⟨Exec.panicked msg, by simp [downloadsInOrder, hx], by simp, by simp⟩
    | returned r =>
      rcases r with ⟨disk1, fn, err⟩
      cases err with
      | some e =>
        refine ⟨Exec.returned (disk1, [⟨d, fn, some e⟩]), by simp [downloadsInOrder, hx],
          by simp, ?_⟩
        intro diskF calls h
        simp only [Exec.returned.injEq, Prod.mk.injEq] at h
        rw [← h.2]
        refine ⟨by simp [List.IsPrefix], by simp, ?_, by simp, by simp⟩
        intro hl
        simp [lastErr] at hl
      | none =>
        have hfn1 : fn = lib.join dir d.encoded := hfn disk1 fn rfl
        obtain ⟨y, hy, hnf2, hcalls⟩ := ih disk1
        cases y with
        | fatal msg => exact absurd rfl (hnf2 msg)
        | panicked msg =>
          exact ⟨Exec.panicked msg, by simp [downloadsInOrder, hx, hy], by simp, by simp⟩
        | returned r2 =>
          rcases r2 with ⟨disk2, calls2⟩
          obtain ⟨hpre, hdl, hlast, hfns, _⟩ := hcalls disk2 calls2 rfl
          refine ⟨Exec.returned (disk2, ⟨d, fn, none⟩ :: calls2),
            by simp [downloadsInOrder, hx, hy], by simp, ?_⟩
          intro diskF calls h
          simp only [Exec.returned.injEq, Prod.mk.injEq] at h
          rw [← h.2]
          refine ⟨?_, ?_, ?_, ?_, by simp⟩
          · obtain ⟨tl, htl⟩ := hpre
            exact ⟨tl, by simp [← htl]⟩
          · intro c hc
            cases calls2 with
            | nil => simp at hc
            | cons c2 cs =>
              simp only [List.dropLast_cons₂, List.mem_cons] at hc
              rcases hc with h1 | h1
              · rw [h1]
              · exact hdl c h1
          · intro hl
            rw [lastErr_cons_none _ _ rfl] at hl
            simp [hlast hl]
          · intro c hc hce
            rcases List.mem_cons.mp hc with h1 | h1
            · rw [h1]; exact hfn1
            · exact hfns c h1 hce

/-- The loop over the layers of `PullImage` makes the downloads laid out for
the digests of the layers: it ends as they end, leaves the disk they leave,
returns the error of the last call, and when all calls returned nil it
returns the layers with the filenames of their calls. -/
theorem pullLayers_refines (lib : GoLib) (os : OS) (blob : Digest → Network) (dir : String) :
    ∀ (ls : List Blob) (disk : Disk) (trace : List (Stage × Option Err)),
      pullLayers lib os blob dir ls disk trace
        = match downloadsInOrder lib os blob dir (ls.map (fun l => l.Digest)) disk with
          | none => none
          | some (Exec.fatal msg) => some (Exec.fatal msg)
          | some (Exec.panicked msg) => some (Exec.panicked msg)
          | some (Exec.returned (diskF, calls)) =>
            some (Exec.returned (diskF,
              trace ++ calls.map (fun c => (Stage.layerDownload c.d, c.err)),
              match lastErr calls with
              | some e => .error e
              | none =>
                .ok (List.zipWith (fun l (c : DownloadCall) => l.SetFilename c.filename)
                  ls calls))) := by
  intro ls
  induction ls with
  | nil =>
    intro disk trace
    simp [pullLayers, downloadsInOrder, lastErr]
  | cons l ls ih =>
    intro disk trace
    simp only [pullLayers, downloadsInOrder, List.map_cons, Blob.GetDigest]
    rcases hx : PullFromDigest lib os disk (blob l.Digest) l.Digest dir with _ | x
    · rfl
    · cases x with
      | fatal msg => rfl
      | panicked msg => rfl
      | returned r =>
        rcases r with ⟨disk1, fn, err⟩
        cases err with
        | some e => simp [lastErr]
        | none =>
          simp only
          rw [ih disk1 (trace ++ [(Stage.layerDownload l.Digest, none)])]
          cases hy : downloadsInOrder lib os blob dir (ls.map (fun l => l.Digest)) disk1 with
          | none => simp
          | some y =>
            cases y with
            | fatal msg => simp
            | panicked msg => simp
            | returned r2 =>
              rcases r2 with ⟨disk2, calls⟩
              simp only [lastErr_cons_none ⟨l.Digest, fn, none⟩ calls rfl]
              cases hl : lastErr calls with
              | some e => simp
              | none => simp

/-- Once manifest and keys are there, `PullImage` is the downloads laid out
for the digests of the manifest: it ends as they end, and when they return
it returns the error of the last call, the manifest with the filenames
recorded if that error is nil and no manifest if it is not, and leaves the
disk the calls leave. -/
theorem PullImage_downloads (lib : GoLib) (os : OS) (disk : Disk) (mnet : ManifestNetwork)
    (decryptKeys : ImageManifest → Except Err ImageManifest) (blob : Digest → Network)
    (dir : String) (m0 m : ImageManifest)
    (hpm : PullManifest mnet dir = (some m0, none)) (hdk : decryptKeys m0 = .ok m) :
    PullImage lib os disk mnet decryptKeys blob dir
      = match downloadsInOrder lib os blob dir (digestsOf m) disk with
        | none => none
        | some (Exec.fatal msg) => some (Exec.fatal msg)
        | some (Exec.panicked msg) => some (Exec.panicked msg)
        | some (Exec.returned (diskF, calls)) =>
          some (Exec.returned ⟨pulledManifest m calls, lastErr calls,
            [(Stage.manifestFetch, none), (Stage.keyUnwrap, none)] ++ callStages calls,
            diskF⟩) := by
  simp only [PullImage, hpm, hdk, digestsOf, downloadsInOrder, Blob.GetDigest]
  cases hx : PullFromDigest lib os disk (blob m.Config.Digest) m.Config.Digest dir with
  | none => simp
  | some x =>
    cases x with
    | fatal msg => simp
    | panicked msg => simp
    | returned r =>
      rcases r with ⟨disk1, fn, err⟩
      cases err with
      | some e => simp [pulledManifest, lastErr, callStages]
      | none =>
        simp only
        rw [pullLayers_refines]
        cases hy : downloadsInOrder lib os blob dir (m.Layers.map (fun l => l.Digest)) disk1 with
        | none => simp
        | some y =>
          cases y with
          | fatal msg => simp
          | panicked msg => simp
          | returned r2 =>
            rcases r2 with ⟨disk2, calls⟩
            simp only [pulledManifest, lastErr_cons_none ⟨m.Config.Digest, fn, none⟩ calls rfl]
            cases hl : lastErr calls with
            | some e => simp [callStages]
            | none => simp [callStages, withFilenames]

/-- The filenames recorded on the layers when every layer has its call and
every call returned the target path of its digest. -/
theorem zipWith_filenames (lib : GoLib) (dir : String) :
    ∀ (ls : List Blob) (cs : List DownloadCall),
      cs.map (fun c => c.d) = ls.map (fun l => l.Digest) →
      (∀ c ∈ cs, c.filename = lib.join dir c.d.encoded) →
      List.zipWith (fun l (c : DownloadCall) => l.SetFilename c.filename) ls cs
        = ls.map (fun l => l.SetFilename (lib.join dir l.Digest.encoded)) := by
  intro ls
  induction ls with
  | nil => intro cs _ _; simp
  | cons l ls ih =>
    intro cs hmap hfn
    cases cs with
    | nil => simp at hmap
    | cons c cs =>
      simp only [List.map_cons, List.cons.injEq] at hmap
      have h1 := hfn c (List.mem_cons_self _ _)
      simp only [List.zipWith_cons_cons, List.map_cons, h1, hmap.1]
      rw [ih cs hmap.2 (fun c2 hc2 => hfn c2 (List.mem_cons_of_mem _ hc2))]

theorem calls_all_nil (calls : List DownloadCall) :
    (∀ c ∈ calls.dropLast, c.err = none) → lastErr calls = none →
    ∀ c ∈ calls, c.err = none := by
  induction calls with
  | nil => intro _ _ c hc; cases hc
  | cons c0 cs ih =>
    intro hdl hl c hc
    cases cs with
    | nil =>
      simp only [List.mem_singleton] at hc
      rw [hc]
      simpa [lastErr] using hl
    | cons c2 cs2 =>
      simp only [List.dropLast_cons₂, List.mem_cons, forall_eq_or_imp] at hdl
      have hl2 : lastErr (c2 :: cs2) = none := by
        simpa [lastErr, List.getLast?_cons_cons] using hl
      rcases List.mem_cons.mp hc with h1 | h1
      · rw [h1]; exact hdl.1
      · exact ih (fun x hx => hdl.2 x hx) hl2 c h1

/-- C11: `PullImage`, stage by stage. When `PullManifest` returns an error
`PullImage` returns it with no manifest, and when the key unwrap returns an
error `PullImage` returns that with no manifest; in both cases no download is
made and the disk is untouched. With manifest and keys there, `PullImage`
makes the downloads laid out for the digest of the config and then those of
the layers in manifest order, each call of `PullFromDigest` on the disk the
one before has left: it leaves the disk they leave; the calls made are for a
prefix of these digests and every call but the last returned nil, so no call
follows one that failed; the error returned is that of the last call; with a
non-nil error there is no manifest; and with a nil error there is a call for
every digest and the manifest returned has on the config and on every layer
the filename the call for its own digest returned. A download that panics
ends `PullImage` with that panic. -/
theorem PullImage_stages (lib : GoLib) (os : OS) (disk : Disk) (mnet : ManifestNetwork)
    (decryptKeys : ImageManifest → Except Err ImageManifest) (blob : Digest → Network)
    (dir : String) :
    (∀ om err, PullManifest mnet dir = (om, some err) →
      PullImage lib os disk mnet decryptKeys blob dir
        = some (Exec.returned ⟨none, some err, [(Stage.manifestFetch, some err)], disk⟩))
    ∧ (∀ m0 e, PullManifest mnet dir = (some m0, none) → decryptKeys m0 = .error e →
      PullImage lib os disk mnet decryptKeys blob dir
        = some (Exec.returned ⟨none, some e,
            [(Stage.manifestFetch, none), (Stage.keyUnwrap, some e)], disk⟩))
    ∧ (∀ m0 m, PullManifest mnet dir = (some m0, none) → decryptKeys m0 = .ok m →
      ∃ y, downloadsInOrder lib os blob dir (digestsOf m) disk = some y
        ∧ (∀ msg, y ≠ Exec.fatal msg)
        ∧ (∀ msg, y = Exec.panicked msg →
            PullImage lib os disk mnet decryptKeys blob dir = some (Exec.panicked msg))
        ∧ (∀ diskF calls, y = Exec.returned (diskF, calls) →
            PullImage lib os disk mnet decryptKeys blob dir
              = some (Exec.returned ⟨pulledManifest m calls, lastErr calls,
                  [(Stage.manifestFetch, none), (Stage.keyUnwrap, none)] ++ callStages calls,
                  diskF⟩)
            ∧ List.IsPrefix (calls.map (fun c => c.d)) (digestsOf m)
            ∧ (∀ c ∈ calls.dropLast, c.err = none)
            ∧ (lastErr calls ≠ none → pulledManifest m calls = none)
            ∧ (lastErr calls = none →
                calls.map (fun c => c.d) = digestsOf m
                ∧ pulledManifest m calls = some
                    { m with
                      Config := m.Config.SetFilename (lib.join dir m.Config.Digest.encoded)
                      Layers := m.Layers.map
                        (fun l => l.SetFilename (lib.join dir l.Digest.encoded)) }))) := by
  refine ⟨?_, ?_, ?_⟩
  · intro om err hpm
    simp [PullImage, hpm]
  · intro m0 e hpm hdk
    simp [PullImage, hpm, hdk]
  · intro m0 m hpm hdk
    obtain ⟨y, hy, hnf, hcalls⟩ := downloadsInOrder_calls lib os blob dir (digestsOf m) disk
    have heq := PullImage_downloads lib os disk mnet decryptKeys blob dir m0 m hpm hdk
    rw [hy] at heq
    refine ⟨y, hy, hnf, ?_, ?_⟩
    · intro msg hmsg
      rw [hmsg] at heq
      exact heq
    · intro diskF calls hret
      rw [hret] at heq
      obtain ⟨hpre, hdl, hlast, hfns, hne⟩ := hcalls diskF calls hret
      refine ⟨heq, hpre, hdl, ?_, ?_⟩
      · intro hl
        cases hle : lastErr calls with
        | none => exact absurd hle hl
        | some e => simp [pulledManifest, hle]
      · intro hl
        have hmap := hlast hl
        refine ⟨hmap, ?_⟩
        have hall := calls_all_nil calls hdl hl
        cases calls with
        | nil => exact absurd rfl (hne (by simp [digestsOf]))
        | cons c cs =>
          simp only [digestsOf, List.map_cons, List.cons.injEq] at hmap
          have hc := hfns c (List.mem_cons_self _ _) (hall c (List.mem_cons_self _ _))
          have hcs : ∀ c2 ∈ cs, c2.filename = lib.join dir c2.d.encoded :=
            fun c2 h2 => hfns c2 (List.mem_cons_of_mem _ h2) (hall c2 (List.mem_cons_of_mem _ h2))
          simp only [pulledManifest, hl, withFilenames, hc, hmap.1,
            zipWith_filenames lib dir m.Layers cs hmap.2 hcs]

/-- C11 at a registry that does not answer the manifest request, at a key
unwrap that fails, and at a manifest with a config and one layer whose blobs
the registry delivers with matching digests: there both downloads are made in
order, no error is returned, and config and layer carry the filename
`dir/sha256-3`, where the blob is on the disk. -/
theorem PullImage_stages_witness :
    PullImage toyLib OS.healthy (fun _ => none) manifestNetDown (fun m => .ok m)
        (fun _ => okNetwork [1, 2, 3]) "dir"
      = some (Exec.returned ⟨none, some (Err.leaf "connection refused"),
          [(Stage.manifestFetch, some (Err.leaf "connection refused"))], fun _ => none⟩)
    ∧ PullImage toyLib OS.healthy (fun _ => none) manifestNet (fun _ => .error errTypeMismatch)
        (fun _ => okNetwork [1, 2, 3]) "dir"
      = some (Exec.returned ⟨none, some errTypeMismatch,
          [(Stage.manifestFetch, none), (Stage.keyUnwrap, some errTypeMismatch)],
          fun _ => none⟩)
    ∧ (∃ y, downloadsInOrder toyLib OS.healthy (fun _ => okNetwork [1, 2, 3]) "dir"
          (digestsOf manifest3) (fun _ => none) = some y
      ∧ (∀ msg, y ≠ Exec.fatal msg)
      ∧ (∀ msg, y = Exec.panicked msg →
          PullImage toyLib OS.healthy (fun _ => none) manifestNet3 (fun m => .ok m)
            (fun _ => okNetwork [1, 2, 3]) "dir" = some (Exec.panicked msg))
      ∧ (∀ diskF calls, y = Exec.returned (diskF, calls) →
          PullImage toyLib OS.healthy (fun _ => none) manifestNet3 (fun m => .ok m)
              (fun _ => okNetwork [1, 2, 3]) "dir"
            = some (Exec.returned ⟨pulledManifest manifest3 calls, lastErr calls,
                [(Stage.manifestFetch, none), (Stage.keyUnwrap, none)] ++ callStages calls,
                diskF⟩)
          ∧ List.IsPrefix (calls.map (fun c => c.d)) (digestsOf manifest3)
          ∧ (∀ c ∈ calls.dropLast, c.err = none)
          ∧ (lastErr calls ≠ none → pulledManifest manifest3 calls = none)
          ∧ (lastErr calls = none →
              calls.map (fun c => c.d) = digestsOf manifest3
              ∧ pulledManifest manifest3 calls = some
                  { manifest3 with
                    Config := manifest3.Config.SetFilename
                      (toyLib.join "dir" manifest3.Config.Digest.encoded)
                    Layers := manifest3.Layers.map
                      (fun l => l.SetFilename (toyLib.join "dir" l.Digest.encoded)) })))
    ∧ (PullImage toyLib OS.healthy (fun _ => none) manifestNet3 (fun m => .ok m)
          (fun _ => okNetwork [1, 2, 3]) "dir").map
        (fun x => match x with
          | Exec.returned r =>
            (r.err.isNone, r.manifest.map (fun m => (m.Config.Filename,
              m.Layers.map (fun l => l.Filename))), r.disk "dir/sha256-3")
          | _ => (false, none, none))
      = some (true, some ("dir/sha256-3", ["dir/sha256-3"]), some [1, 2, 3]) :=
  ⟨(PullImage_stages toyLib OS.healthy (fun _ => none) manifestNetDown (fun m => .ok m)
      (fun _ => okNetwork [1, 2, 3]) "dir").1 none (Err.leaf "connection refused") rfl,
    (PullImage_stages toyLib OS.healthy (fun _ => none) manifestNet
      (fun _ => .error errTypeMismatch) (fun _ => okNetwork [1, 2, 3]) "dir").2.1
      manifest00 errTypeMismatch rfl rfl,
    (PullImage_stages toyLib OS.healthy (fun _ => none) manifestNet3 (fun m => .ok m)
      (fun _ => okNetwork [1, 2, 3]) "dir").2.2 manifest3 manifest3 rfl rfl,
    rfl⟩

/-- A pull whose key unwrap fails: the manifest has been fetched, no blob is
requested, and the error of the key wrapper is returned without a
manifest. -/
theorem PullImage_key_unwrap_fails :
    (PullImage toyLib OS.healthy (fun _ => none) manifestNet
        (fun _ => .error errTypeMismatch) (fun _ => okNetwork [1, 2, 3]) "dir").map
      (fun x => match x with
        | Exec.returned r => (r.manifest.isSome, r.trace, r.disk "dir/00")
        | _ => (true, [], none))
    = some (false, [(Stage.manifestFetch, none), (Stage.keyUnwrap, some errTypeMismatch)],
        none) := by
  rfl

/-! ## `findLayers` -/

/-- An entry that an iteration of the loop of `findLayers` builds for the
file `f` is the entry the specification has for `f`. -/
theorem layerStep_entry (os : OS) (sio : Sio) (P : Packer) (lib : GoLib)
    (layers : List String) (path f : String) (w w1 : World) (e : LayerJSON)
    (h : layerStep os sio P lib layers path f w = (w1, .ok e)) :
    entryFor P lib layers path f w e := by
  unfold layerStep at h
  simp only at h
  cases hopen : osOpen os w.disk (lib.join path f) with
  | error err => simp [hopen] at h
  | ok fh =>
    have hcontent : ∃ c, w.disk (lib.join path f) = some c := by
      unfold osOpen at hopen
      cases ho : os.openErr (lib.join path f) with
      | some e0 => simp [ho] at hopen
      | none =>
        cases hd : w.disk (lib.join path f) with
        | none => simp [ho, hd] at hopen
        | some c => exact ⟨c, rfl⟩
    obtain ⟨c, hc⟩ := hcontent
    simp only [hopen] at h
    cases hr : P.readErr (lib.join path f) with
    | some err => simp [hr] at h
    | none =>
      simp only [hr, hc, Option.getD_some] at h
      refine ⟨c, hc, ?_, ?_⟩
      · intro hin
        simp only [hin, if_true] at h
        unfold encryptLayer at h
        simp only at h
        rcases hcmp : Compress P w.disk (lib.join path f) with ⟨disk1, ce⟩
        rw [hcmp] at h
        cases ce with
        | some err => simp at h
        | none =>
          simp only [GenDataKey] at h
          cases hk : P.randRead w.draws 32 with
          | error err => simp [hk] at h
          | ok key =>
            simp only [hk] at h
            rcases henc : EncFile os sio lib disk1 (lib.join path f ++ ".gz")
              (lib.join path f ++ ".gz" ++ ".aes") key with ⟨disk2, d, size, ee⟩
            rw [henc] at h
            cases ee with
            | some err => simp at h
            | none =>
              simp only [Prod.mk.injEq, Except.ok.injEq, NewLayerJSON, Option.getD_some] at h
              rw [← h.2]
              exact ⟨rfl, key, rfl, rfl⟩
      · intro hnot
        simp only [hnot, if_false] at h
        unfold compressLayer at h
        simp only at h
        rcases hcmp : CompressWithDigest P lib w.disk (lib.join path f) with ⟨disk1, d, ce⟩
        rw [hcmp] at h
        cases ce with
        | some err => simp at h
        | none =>
          simp only at h
          cases hs : P.statErr (lib.join path f ++ ".gz") with
          | some err => simp [hs] at h
          | none =>
            cases hd1 : disk1 (lib.join path f ++ ".gz") with
            | none => simp [hs, hd1] at h
            | some c1 =>
              simp only [hs, hd1, Prod.mk.injEq, Except.ok.injEq, NewPlainLayerJSON] at h
              rw [← h.2]
              exact ⟨rfl, rfl⟩

/-- When the loop of `findLayers` goes through, it has built one entry for
each layer file, in the order of the files, each the entry the specification
has for its file in the world in which the turn of the file came. -/
theorem layersLoop_entries (os : OS) (sio : Sio) (P : Packer) (lib : GoLib)
    (layers : List String) (path : String) :
    ∀ (fs : List String) (w w2 : World) (es : List LayerJSON),
      layersLoop os sio P lib layers path fs w = (w2, .ok es) →
      es.length = fs.length
      ∧ List.Forall₂ (fun (fw : String × World) e => entryFor P lib layers path fw.1 fw.2 e)
          (fs.zip (layerWorlds os sio P lib layers path fs w)) es := by
  intro fs
  induction fs with
  | nil =>
    intro w w2 es h
    simp only [layersLoop, Prod.mk.injEq, Except.ok.injEq] at h
    rw [← h.2]
    exact ⟨rfl, by simp [layerWorlds]⟩
  | cons f fs ih =>
    intro w w2 es h
    simp only [layersLoop] at h
    rcases hstep : layerStep os sio P lib layers path f w with ⟨w1, r⟩
    rw [hstep] at h
    cases r with
    | error err => simp at h
    | ok e =>
      simp only at h
      rcases hrec : layersLoop os sio P lib layers path fs w1 with ⟨w3, r2⟩
      rw [hrec] at h
      cases r2 with
      | error err => simp at h
      | ok es1 =>
        simp only [Prod.mk.injEq, Except.ok.injEq] at h
        obtain ⟨hlen, hall⟩ := ih w1 w3 es1 hrec
        rw [← h.2]
        refine ⟨by simp [hlen], ?_⟩
        simp only [layerWorlds, hstep, List.zip_cons_cons]
        exact List.Forall₂.cons (layerStep_entry os sio P lib layers path f w w1 e hstep) hall

/-- C12: when `findLayers` returns an error it returns no config and no layer
list. When it returns a nil error on an archive manifest whose first image
lists the layer files `f_0 .. f_{k-1}`, it returns a config entry with crypto
metadata and exactly `k` layer entries in the order of the files, where entry
`i` is, for the file `f_i` as it is when its turn comes, the entry with
crypto metadata (a key `rand.Read` returned at that turn, stored file
`f_i.gz.aes`) if the canonical digest of `f_i` is among the digests to
encrypt, and the plain entry without crypto metadata (stored file `f_i.gz`)
if it is not. -/
theorem findLayers_entries (os : OS) (sio : Sio) (P : Packer) (lib : GoLib) (w : World)
    (repo tag path : String) (layers : List String) :
    ((findLayers os sio P lib w repo tag path layers).err ≠ none →
      (findLayers os sio P lib w repo tag path layers).config = none
      ∧ (findLayers os sio P lib w repo tag path layers).layers = none)
    ∧ ((findLayers os sio P lib w repo tag path layers).err = none →
      ∃ dat image0 rest config es,
        ioutilReadFile os P w.disk (lib.join path "manifest.json") = .ok dat
        ∧ P.unmarshal dat = .ok (image0 :: rest)
        ∧ (findLayers os sio P lib w repo tag path layers).config = some config
        ∧ config.Filename = lib.join path image0.Config ++ ".gz" ++ ".aes"
        ∧ config.Crypto.isSome = true
        ∧ (findLayers os sio P lib w repo tag path layers).layers = some es
        ∧ es.length = image0.Layers.length
        ∧ List.Forall₂
            (fun (fw : String × World) e => entryFor P lib layers path fw.1 fw.2 e)
            (image0.Layers.zip (layerWorlds os sio P lib layers path image0.Layers
              (encryptLayer os sio P lib w (lib.join path image0.Config)).1))
            es) := by
  cases hread : ioutilReadFile os P w.disk (lib.join path "manifest.json") with
  | error err => simp [findLayers, hread]
  | ok dat =>
    cases hparse : P.unmarshal dat with
    | error err => simp [findLayers, hread, hparse]
    | ok images =>
      cases images with
      | nil => simp [findLayers, hread, hparse]
      | cons image0 rest =>
        rcases hcfg : encryptLayer os sio P lib w (lib.join path image0.Config)
          with ⟨w1, ⟨name, d, size, key, ce⟩⟩
        cases ce with
        | some err => simp [findLayers, hread, hparse, hcfg]
        | none =>
          rcases hloop : layersLoop os sio P lib layers path image0.Layers w1 with ⟨w2, r⟩
          cases r with
          | error err => simp [findLayers, hread, hparse, hcfg, hloop]
          | ok es =>
            obtain ⟨hlen, hall⟩ :=
              layersLoop_entries os sio P lib layers path image0.Layers w1 w2 es hloop
            have hres : findLayers os sio P lib w repo tag path layers
                = ⟨w2, some (NewConfigJSON name d size (key.getD [])), some es, none⟩ := by
              simp [findLayers, hread, hparse, hcfg, hloop]
            rw [hres]
            refine ⟨by simp, fun _ => ?_⟩
            refine ⟨dat, image0, rest, NewConfigJSON name d size (key.getD []), es,
              rfl, hparse, rfl, ?_, rfl, rfl, hlen, by rw [hcfg]; exact hall⟩
            -- the name `encryptLayer` returned for the config
            unfold encryptLayer at hcfg
            simp only at hcfg
            rcases hcmp : Compress P w.disk (lib.join path image0.Config) with ⟨disk1, e1⟩
            rw [hcmp] at hcfg
            cases e1 with
            | some err => simp at hcfg
            | none =>
              simp only [GenDataKey] at hcfg
              cases hk : P.randRead w.draws 32 with
              | error err => simp [hk] at hcfg
              | ok k =>
                simp only [hk] at hcfg
                rcases henc : EncFile os sio lib disk1 (lib.join path image0.Config ++ ".gz")
                  (lib.join path image0.Config ++ ".gz" ++ ".aes") k with ⟨disk2, d2, s2, ee⟩
                rw [henc] at hcfg
                cases ee with
                | some err => simp at hcfg
                | none =>
                  simp only [Prod.mk.injEq, LayerFile.mk.injEq] at hcfg
                  simp [NewConfigJSON, ← hcfg.2.1]

/-- C12 at an archive with two layer files, the first of which has its digest
among those to encrypt: the entries are stored at `a/layer.tar.gz.aes`, with
a key, and at `b/layer.tar.gz`, without. -/
theorem findLayers_entries_witness :
    (findLayers OS.healthy toySio toyPacker toyLib ⟨diskStage, 0⟩ "repo" "tag" "stage"
        ["sha256:sha256-3"]).err = none
    ∧ (findLayers OS.healthy toySio toyPacker toyLib ⟨diskStage, 0⟩ "repo" "tag" "stage"
        ["sha256:sha256-3"]).layers
      = some [⟨"stage/a/layer.tar.gz.aes", some ⟨"sha256", "sha256-6"⟩, 6,
                some ⟨List.replicate 32 1⟩⟩,
              ⟨"stage/b/layer.tar.gz", some ⟨"sha256", "sha256-4"⟩, 4, none⟩]
    ∧ ∃ dat image0 rest config es,
        ioutilReadFile OS.healthy toyPacker diskStage (toyLib.join "stage" "manifest.json")
          = .ok dat
        ∧ toyPacker.unmarshal dat = .ok (image0 :: rest)
        ∧ (findLayers OS.healthy toySio toyPacker toyLib ⟨diskStage, 0⟩ "repo" "tag" "stage"
            ["sha256:sha256-3"]).config = some config
        ∧ config.Filename = toyLib.join "stage" image0.Config ++ ".gz" ++ ".aes"
        ∧ config.Crypto.isSome = true
        ∧ (findLayers OS.healthy toySio toyPacker toyLib ⟨diskStage, 0⟩ "repo" "tag" "stage"
            ["sha256:sha256-3"]).layers = some es
        ∧ es.length = image0.Layers.length
        ∧ List.Forall₂
            (fun (fw : String × World) e =>
              entryFor toyPacker toyLib ["sha256:sha256-3"] "stage" fw.1 fw.2 e)
            (image0.Layers.zip (layerWorlds OS.healthy toySio toyPacker toyLib
              ["sha256:sha256-3"] "stage" image0.Layers
              (encryptLayer OS.healthy toySio toyPacker toyLib ⟨diskStage, 0⟩
                (toyLib.join "stage" image0.Config)).1))
            es :=
  ⟨rfl, rfl,
    (findLayers_entries OS.healthy toySio toyPacker toyLib ⟨diskStage, 0⟩ "repo" "tag" "stage"
      ["sha256:sha256-3"]).2 rfl⟩

end CryptoCli
